import Mathlib

/-!
Verification development for the federation gateway core
(`query-planner-js/src/composedSchema/buildComposedSchema.ts`,
`federation-js` post-composition validators, `gateway-js/src/config.ts`).

The GraphQL SDL parser itself is an external collaborator (spec §1), so SDL
documents are embedded as their parsed ASTs; the field-set sub-language
(`@key`/`@requires`/`@provides` arguments) is modelled explicitly below so
that printing and re-parsing a supergraph SDL is a real computation.
-/

instance {ε α : Type} [DecidableEq ε] [DecidableEq α] : DecidableEq (Except ε α) :=
  fun x y =>
    match x, y with
    | .error a, .error b =>
      if h : a = b then .isTrue (by rw [h]) else .isFalse (fun hc => h (by injection hc))
    | .error _, .ok _ => .isFalse (fun hc => Except.noConfusion hc)
    | .ok _, .error _ => .isFalse (fun hc => Except.noConfusion hc)
    | .ok a, .ok b =>
      if h : a = b then .isTrue (by rw [h]) else .isFalse (fun hc => h (by injection hc))

namespace Federation

/-! ## Field sets

Modelled from the spec: a FieldSet is "a parsed selection set"; the reference
implementation delegates its parsing to the external GraphQL operation parser
(`parseFieldSet` wraps `parse` from graphql-js, spec §9: "reuse the same
operation parser").  We model a field-set source text as a string of
space-separated root field names, which covers every field set appearing in
the claims. -/

/-- One step of the word splitter: `acc` holds the (reversed) characters of
the word currently being read. -/
def splitWordsGo (acc : List Char) : List Char → List (List Char)
  | [] => if acc.isEmpty then [] else [acc.reverse]
  | c :: rest =>
    if c = ' ' then
      if acc.isEmpty then splitWordsGo [] rest
      else acc.reverse :: splitWordsGo [] rest
    else splitWordsGo (c :: acc) rest

/-- Modelled from the spec: `parseFieldSet` (a `query-planner-js` utility not
under `src/`) parses a field-set source string with the external GraphQL
parser; here it splits the source into its root field names. -/
def parseFieldSet (s : String) : List String :=
  (splitWordsGo [] s.data).map String.mk

/-- Characters of the printed form of a list of words: words joined by a
single space. -/
def printFieldSetChars : List (List Char) → List Char
  | [] => []
  | [w] => w
  | w :: rest => w ++ ' ' :: printFieldSetChars rest

/-- Modelled from the spec: `printFieldSet` (a `federation-js` utility not
under `src/`) prints a field set back to its GraphQL source form. -/
def printFieldSet (fs : List String) : String :=
  String.mk (printFieldSetChars (fs.map String.data))

/-- Models JavaScript `String.prototype.startsWith` (used by `isExported` in
`buildComposedSchema.ts`). -/
def strStartsWith (s p : String) : Bool :=
  p.data.isPrefixOf s.data

/-! ## Supergraph SDL documents

The input of `buildComposedSchema` is a `DocumentNode`; we embed exactly the
parts of the AST the function consumes: the `@core` applications on the
schema node, the directive definitions present, and the named types with
their `@join__*` applications. -/

/-- Value of a `@join__graph(name:, url:)` application, and also an entry of
the graph table built from it. -/
structure Graph where
  name : String
  url : String
deriving DecidableEq

/-- An enum value of `join__Graph` together with its `@join__graph` arguments
(`none` models a value missing the directive). -/
structure DocEnumValue where
  name : String
  joinGraphArgs : Option Graph
deriving DecidableEq

/-- Arguments of a `@join__owner(graph:)` application. -/
structure JoinOwnerArgs where
  graph : String
deriving DecidableEq

/-- Arguments of one `@join__type(graph:, key:)` application. -/
structure JoinTypeArgs where
  graph : String
  key : String
deriving DecidableEq

/-- Arguments of a `@join__field(graph:, requires:?, provides:?)`
application. -/
structure JoinFieldArgs where
  graph : String
  requires : Option String
  provides : Option String
deriving DecidableEq

/-- A field definition of an object type in the document. -/
structure DocField where
  name : String
  joinFieldArgs : Option JoinFieldArgs
deriving DecidableEq

/-- An object type definition in the document. -/
structure DocObjectType where
  name : String
  joinOwnerArgs : Option JoinOwnerArgs
  joinTypeArgs : List JoinTypeArgs
  fields : List DocField
deriving DecidableEq

/-- A named type of the document's type map. -/
inductive DocType where
  | obj (t : DocObjectType)
  | enum (name : String) (values : List DocEnumValue)
  | other (name : String)
deriving DecidableEq

/-- Name of a document type. -/
def DocType.typeName : DocType → String
  | .obj t => t.name
  | .enum n _ => n
  | .other n => n

/-- A supergraph SDL document, embedded as the parts of the parsed AST that
`buildComposedSchema` consumes. -/
structure Document where
  coreFeatures : List String
  directives : List String
  types : List DocType
deriving DecidableEq

/-! ## Federation metadata (output of `buildComposedSchema`) -/

/-- `FederationFieldMetadata` from `composedSchema/metadata`: the resolving
graph (possibly `undefined`) and parsed requires/provides field sets. -/
structure FederationFieldMetadata where
  graphName : Option String
  requires : Option (List String)
  provides : Option (List String)
deriving DecidableEq

/-- `FederationTypeMetadata`: a value type, or an entity with its owner graph
and its keys multimap (subgraph name to its list of key field sets). -/
inductive FederationTypeMetadata where
  | valueType
  | entity (graphName : String) (keys : List (String × List (List String)))
deriving DecidableEq

/-- A field of the composed schema together with its attached federation
metadata. -/
structure PField where
  name : String
  meta : Option FederationFieldMetadata
deriving DecidableEq

/-- A named type of the composed schema; object types carry the attached
federation metadata. -/
inductive PNamedType where
  | obj (name : String) (meta : Option FederationTypeMetadata) (fields : List PField)
  | enum (name : String) (values : List String)
  | other (name : String)
deriving DecidableEq

/-- Name of a composed-schema type. -/
def PNamedType.typeName : PNamedType → String
  | .obj n _ _ => n
  | .enum n _ => n
  | .other n => n

/-- An error raised during ingest: an `assert` failure, or a thrown
`GraphQLError` carrying an optional stable error code. -/
inductive CompError where
  | assertion (message : String)
  | graphqlError (message : String) (code : Option String)
deriving DecidableEq

/-- The optional stable error code carried by an ingest error
(a plain `GraphQLError` carries its code in `extensions`; an `assert`
failure carries none). -/
def CompError.errCode : CompError → Option String
  | .assertion _ => none
  | .graphqlError _ c => c

/-- The graph table: enum value of `join__Graph` to subgraph name and URL. -/
abbrev GraphMap := List (String × Graph)

/-- Lookup in the graph table (JavaScript `Map.get`). -/
def lookupGraph (gm : GraphMap) (k : String) : Option Graph :=
  match gm.find? (fun p => p.1 = k) with
  | some p => some p.2
  | none => none

/-- JavaScript `Map.set`: overwrite in place if the key exists, else append. -/
def mapSet (gm : GraphMap) (k : String) (v : Graph) : GraphMap :=
  if gm.any (fun p => p.1 = k) then
    gm.map (fun p => if p.1 = k then (k, v) else p)
  else gm ++ [(k, v)]

/-! ## `buildComposedSchema` (from
`src/query-planner-js/src/composedSchema/buildComposedSchema.ts`) -/

/-- Lines 35–37: `assert(coreDirective, ...)`. -/
def checkCoreDirective (doc : Document) : Except CompError Unit :=
  if doc.directives.contains "core" then .ok ()
  else .error (.assertion "Expected core schema, but can't find @core directive")

/-- Lines 48–62: the loop over `@core` applications; throws a `GraphQLError`
(without any error code) at the first unsupported feature. -/
def checkCoreFeaturesGo : List String → Except CompError Unit
  | [] => .ok ()
  | f :: rest =>
    if f = "https://specs.apollo.dev/core/v0.1" ∨
        f = "https://specs.apollo.dev/join/v0.1" then
      checkCoreFeaturesGo rest
    else
      .error (.graphqlError ("Unsupported core schema feature and/or version: " ++ f) none)

/-- Lines 66–80: `getJoinDirective` asserts for owner, type, field, graph. -/
def checkJoinDirectives (doc : Document) : Except CompError Unit :=
  if !doc.directives.contains "join__owner" then
    .error (.assertion "Composed schema should define @join__owner directive")
  else if !doc.directives.contains "join__type" then
    .error (.assertion "Composed schema should define @join__type directive")
  else if !doc.directives.contains "join__field" then
    .error (.assertion "Composed schema should define @join__field directive")
  else if !doc.directives.contains "join__graph" then
    .error (.assertion "Composed schema should define @join__graph directive")
  else .ok ()

/-- Lines 82–83: fetch `join__Graph` and assert it is an enum. -/
def getGraphEnumValues (doc : Document) : Except CompError (List DocEnumValue) :=
  match doc.types.find? (fun t => DocType.typeName t = "join__Graph") with
  | some (.enum _ vs) => .ok vs
  | _ => .error (.assertion "join__Graph should be an enum")

/-- Lines 94–113: build the graph table from the enum values; each value must
carry a `@join__graph` directive. -/
def buildGraphMapGo (acc : GraphMap) : List DocEnumValue → Except CompError GraphMap
  | [] => .ok acc
  | v :: rest =>
    match v.joinGraphArgs with
    | none =>
      .error (.assertion ("join__Graph value " ++ v.name ++
        " in composed schema should have a @join__graph directive"))
    | some g => buildGraphMapGo (mapSet acc v.name g) rest

/-- Everything before the type-map loop: feature checks, directive asserts,
and the graph table. -/
def ingestPrelude (doc : Document) : Except CompError GraphMap := do
  let _ ← checkCoreDirective doc
  let _ ← checkCoreFeaturesGo doc.coreFeatures
  let _ ← checkJoinDirectives doc
  let vs ← getGraphEnumValues doc
  buildGraphMapGo [] vs

/-- JavaScript truthiness of an optional string argument: an absent argument
and the empty string are both falsy (lines 209–217 guard `requires` and
`provides` with plain `if`). -/
def truthy : Option String → Option String
  | some s => if s = "" then none else some s
  | none => none

/-- Lines 187–218: attach `FederationFieldMetadata` to a field; an unknown
`graph` argument degrades to `graphName: undefined` via the `?.` chain. -/
def processField (gm : GraphMap) (f : DocField) : PField :=
  match f.joinFieldArgs with
  | none => ⟨f.name, none⟩
  | some fa =>
    ⟨f.name, some ⟨(lookupGraph gm fa.graph).map Graph.name,
      (truthy fa.requires).map parseFieldSet,
      (truthy fa.provides).map parseFieldSet⟩⟩

/-- `MultiMap.add`: append the value to the list at the key, creating the
entry at the end on first use. -/
def addMulti (m : List (String × List (List String))) (k : String)
    (v : List String) : List (String × List (List String)) :=
  match m with
  | [] => [(k, [v])]
  | (k', vs) :: rest =>
    if k' = k then (k', vs ++ [v]) :: rest
    else (k', vs) :: addMulti rest k v

/-- Lines 169–185: the loop over `@join__type` applications; each must name a
known graph, and contributes one key field set to the keys multimap. -/
def foldTypeDirs (gm : GraphMap) (tname : String)
    (acc : List (String × List (List String))) :
    List JoinTypeArgs → Except CompError (List (String × List (List String)))
  | [] => .ok acc
  | d :: rest =>
    match lookupGraph gm d.graph with
    | none =>
      .error (.assertion ("GraphQL type \"" ++ tname ++
        "\" must provide a `graph` argument to the @join__type directive"))
    | some g => foldTypeDirs gm tname (addMulti acc g.name (parseFieldSet d.key)) rest

/-- Lines 115–219 for one object type: introspection types are skipped; a
`@join__owner` with an unknown graph fails an assert; `@join__type` without
`@join__owner` fails an assert; otherwise entity or value-type metadata is
attached and every field is processed. -/
def processObj (gm : GraphMap) (t : DocObjectType) : Except CompError PNamedType :=
  if strStartsWith t.name "__" then
    .ok (.obj t.name none (t.fields.map (fun f => ⟨f.name, none⟩)))
  else
    match t.joinOwnerArgs with
    | some oa =>
      match lookupGraph gm oa.graph with
      | none => .error (.assertion "@join__owner directive requires a `graph` argument")
      | some g =>
        match foldTypeDirs gm t.name [] t.joinTypeArgs with
        | .error e => .error e
        | .ok keys =>
          .ok (.obj t.name (some (.entity g.name keys)) (t.fields.map (processField gm)))
    | none =>
      if t.joinTypeArgs.isEmpty then
        .ok (.obj t.name (some .valueType) (t.fields.map (processField gm)))
      else
        .error (.assertion ("GraphQL type \"" ++ t.name ++
          "\" cannot have a @join__type directive without an @join__owner directive"))

/-- One step of the type-map loop: only object types receive metadata. -/
def processDocType (gm : GraphMap) : DocType → Except CompError PNamedType
  | .obj t => processObj gm t
  | .enum n vs => .ok (.enum n (vs.map DocEnumValue.name))
  | .other n => .ok (.other n)

/-- Process a list in order, stopping at the first error. -/
def mapExcept (f : α → Except CompError β) : List α → Except CompError (List β)
  | [] => .ok []
  | a :: l =>
    match f a with
    | .error e => .error e
    | .ok b =>
      match mapExcept f l with
      | .error e => .error e
      | .ok bs => .ok (b :: bs)

/-- Lines 233–246, `isExported` on a named type: only feature-prefixed names
are filtered (the unprefixed feature name applies only to directives). -/
def isExportedTypeName (n : String) : Bool :=
  !(strStartsWith n "core__" || strStartsWith n "join__")

/-- Lines 233–246, `isExported` on a directive: the bare feature names `core`
and `join` are filtered alongside the prefixed names. -/
def isExportedDirectiveName (n : String) : Bool :=
  !((n == "core") || strStartsWith n "core__" ||
    (n == "join") || strStartsWith n "join__")

/-- The schema returned by `buildComposedSchema`: the graph table (attached
to `schema.extensions.federation`), the filtered type map with attached
metadata, and the filtered directives. -/
structure ComposedSchema where
  graphs : GraphMap
  types : List PNamedType
  directives : List String
deriving DecidableEq

/-- `buildComposedSchema` (lines 28–247): feature and directive checks, the
graph table, metadata attachment over the type map, and the API-schema
filtering of `core__`/`join__` elements. -/
def buildComposedSchema (doc : Document) : Except CompError ComposedSchema :=
  match ingestPrelude doc with
  | .error e => .error e
  | .ok gm =>
    match mapExcept (processDocType gm) doc.types with
    | .error e => .error e
    | .ok ts =>
      .ok ⟨gm, ts.filter (fun t => isExportedTypeName (PNamedType.typeName t)),
        doc.directives.filter isExportedDirectiveName⟩

/-! ## `keyFieldsSelectInvalidType` (from `src/unnamed/part_000`, a
post-composition validator of `federation-js`)

The validator consumes the composed schema (with the federation metadata of
`federation-js`: per-type `keys` as a record from service name to key
selection sets) and the service list.  The service list is used by the
source only to locate AST nodes for error *locations*; the model keeps the
parameter but omits locations. -/

/-- A GraphQL type reference as classified by the `graphql-js` predicates the
validator calls. -/
inductive GType where
  | scalar (name : String)
  | object (name : String)
  | interface (name : String)
  | union (name : String)
  | enum (name : String)
  | inputObject (name : String)
  | list (ofType : GType)
  | nonNull (ofType : GType)
deriving DecidableEq

/-- `graphql-js` `isInterfaceType`. -/
def isInterfaceType : GType → Bool
  | .interface _ => true
  | _ => false

/-- `graphql-js` `isUnionType`. -/
def isUnionType : GType → Bool
  | .union _ => true
  | _ => false

/-- `graphql-js` `isNonNullType`. -/
def isNonNullType : GType → Bool
  | .nonNull _ => true
  | _ => false

/-- `graphql-js` `getNullableType`: strip one non-null wrapper. -/
def getNullableType : GType → GType
  | .nonNull t => t
  | t => t

/-- A `GraphQLError` produced by a validation pass, as its stable code and
message (source locations omitted). -/
structure ValError where
  code : String
  message : String
deriving DecidableEq

/-- The `federation-js` `logServiceAndType` message header. -/
def logServiceAndType (serviceName typeName : String) : String :=
  "[" ++ serviceName ++ "] " ++ typeName ++ " -> "

/-- A service of the service list (only its name matters here). -/
structure Service where
  name : String
deriving DecidableEq

/-- A named type of the composed schema as the validator sees it: its fields
and the federation `keys` metadata (service name to key selection sets, each
selection set given by its root field names). -/
structure ValType where
  name : String
  isObjectType : Bool
  fields : List (String × GType)
  keys : Option (List (String × List (List String)))
deriving DecidableEq

/-- Field lookup in `type.getFields()`. -/
def lookupField (fields : List (String × GType)) (n : String) : Option GType :=
  (fields.find? (fun p => p.1 = n)).map Prod.snd

/-- Lines 55–106 of the validator, for one selected key field: a missing
field, an interface-typed field and a union-typed field each push one
`KEY_FIELDS_SELECT_INVALID_TYPE` error; nothing else does (in particular a
list-typed field passes). -/
def errsForKeyField (t : ValType) (svc fname : String) : List ValError :=
  match lookupField t.fields fname with
  | none =>
    [⟨"KEY_FIELDS_SELECT_INVALID_TYPE",
      logServiceAndType svc t.name ++ "A @key selects " ++ fname ++ ", but " ++
        t.name ++ "." ++ fname ++ " could not be found"⟩]
  | some fty =>
    (if isInterfaceType fty ||
        (isNonNullType fty && isInterfaceType (getNullableType fty)) then
      [⟨"KEY_FIELDS_SELECT_INVALID_TYPE",
        logServiceAndType svc t.name ++ "A @key selects " ++ t.name ++ "." ++ fname ++
          ", which is an interface type. Keys cannot select interfaces."⟩]
    else []) ++
    (if isUnionType fty ||
        (isNonNullType fty && isUnionType (getNullableType fty)) then
      [⟨"KEY_FIELDS_SELECT_INVALID_TYPE",
        logServiceAndType svc t.name ++ "A @key selects " ++ t.name ++ "." ++ fname ++
          ", which is a union type. Keys cannot select union types."⟩]
    else [])

/-- The `keyFieldsSelectInvalidType` post-composition validator (lines
38–113): errors are pushed for every offending key field over all types,
services and key selection sets. -/
def keyFieldsSelectInvalidType (schema : List ValType) (serviceList : List Service) :
    List ValError :=
  schema.flatMap fun t =>
    if !t.isObjectType then []
    else
      match t.keys with
      | none => []
      | some ks =>
        ks.flatMap fun p =>
          p.2.flatMap fun sel =>
            sel.flatMap fun fname => errsForKeyField t p.1 fname

/-- Number of violations one selected key field contributes (a missing field
counts once; an interface-typed and a union-typed result each count once). -/
def violCountForKeyField (t : ValType) (fname : String) : Nat :=
  match lookupField t.fields fname with
  | none => 1
  | some fty =>
    (if isInterfaceType fty ||
        (isNonNullType fty && isInterfaceType (getNullableType fty)) then 1 else 0) +
    (if isUnionType fty ||
        (isNonNullType fty && isUnionType (getNullableType fty)) then 1 else 0)

/-- Total number of violating occurrences in the validator's input. -/
def countKeyViolations (schema : List ValType) : Nat :=
  (schema.map fun t =>
    if !t.isObjectType then 0
    else
      match t.keys with
      | none => 0
      | some ks =>
        (ks.map fun p =>
          (p.2.map fun sel => (sel.map (violCountForKeyField t)).sum).sum).sum).sum

/-! ## `providesFieldsMissingExternal`

Modelled from the spec: the validator itself is not under `src/` (only its
test file is); per the spec's validation table, "every field mentioned in
`@provides` is `@external` on the referenced type in the providing
subgraph", with one `PROVIDES_FIELDS_MISSING_EXTERNAL` error per field that
is not (message shape taken from the test snapshot). -/

/-- The `[service] Type.field -> ` message header used for field-level
errors. -/
def logServiceTypeField (serviceName typeName fieldName : String) : String :=
  "[" ++ serviceName ++ "] " ++ typeName ++ "." ++ fieldName ++ " -> "

/-- A field of the composed schema as seen by the provides validator: its
named return type, the subgraph that declared it, and its `@provides` field
set. -/
structure PSField where
  name : String
  returnType : String
  serviceName : Option String
  provides : Option (List String)
deriving DecidableEq

/-- A composed-schema type for the provides validator: its fields and, per
(service, field) pair, the `@external` marks recorded on it. -/
structure PSType where
  name : String
  fields : List PSField
  externals : List (String × String)
deriving DecidableEq

/-- Named-type lookup in the composed schema. -/
def findPSType (schema : List PSType) (n : String) : Option PSType :=
  schema.find? (fun t => t.name = n)

/-- Modelled from the spec: errors contributed by one field carrying
`@provides` — one error per provided field that is not marked `@external`
on the referenced return type in the providing subgraph. -/
def providesErrsForField (schema : List PSType) (tname : String) (f : PSField) :
    List ValError :=
  match f.serviceName, f.provides with
  | some svc, some fs =>
    (match findPSType schema f.returnType with
     | some base =>
       fs.flatMap fun pname =>
         if base.externals.contains (svc, pname) then []
         else
           [⟨"PROVIDES_FIELDS_MISSING_EXTERNAL",
             logServiceTypeField svc tname f.name ++ "provides the field `" ++
               pname ++ "` and requires " ++ f.returnType ++ "." ++ pname ++
               " to be marked as @external."⟩]
     | none => [])
  | _, _ => []

/-- Modelled from the spec: the `providesFieldsMissingExternal`
post-composition validator. -/
def providesFieldsMissingExternal (schema : List PSType) : List ValError :=
  schema.flatMap fun t => t.fields.flatMap (providesErrsForField schema t.name)

/-- Number of `@provides` violations one field contributes. -/
def providesViolCountForField (schema : List PSType) (f : PSField) : Nat :=
  match f.serviceName, f.provides with
  | some svc, some fs =>
    (match findPSType schema f.returnType with
     | some base =>
       (fs.map fun pname => if base.externals.contains (svc, pname) then 0 else 1).sum
     | none => 0)
  | _, _ => 0

/-- Total number of `@provides` violations in the composed schema. -/
def countProvidesViolations (schema : List PSType) : Nat :=
  (schema.map fun t => (t.fields.map (providesViolCountForField schema)).sum).sum

/-! ## Gateway configuration (from `src/gateway-js/src/config.ts`)

A `GatewayConfig` value is classified by presence of distinguishing
properties; the `in config` checks are modelled by presence flags, and
`experimental_schemaConfigDeliveryEndpoint` by an outer option (presence)
over an inner option (`null` vs a string). -/

/-- A gateway configuration: presence of each distinguishing property. -/
structure GatewayConfig where
  localServiceList : Bool
  csdl : Bool
  serviceList : Bool
  experimental_updateServiceDefinitions : Bool
  experimental_updateCsdl : Bool
  experimental_schemaConfigDeliveryEndpoint : Option (Option String)
deriving DecidableEq

/-- `isLocalConfig`: `'localServiceList' in config`. -/
def isLocalConfig (c : GatewayConfig) : Bool := c.localServiceList

/-- `isRemoteConfig`: `'serviceList' in config`. -/
def isRemoteConfig (c : GatewayConfig) : Bool := c.serviceList

/-- `isCsdlConfig`: `'csdl' in config`. -/
def isCsdlConfig (c : GatewayConfig) : Bool := c.csdl

/-- `isManuallyManagedConfig`: either update function is present. -/
def isManuallyManagedConfig (c : GatewayConfig) : Bool :=
  c.experimental_updateServiceDefinitions || c.experimental_updateCsdl

/-- `isPrecomposedManagedConfig`: the endpoint is present and not `null`. -/
def isPrecomposedManagedConfig (c : GatewayConfig) : Bool :=
  match c.experimental_schemaConfigDeliveryEndpoint with
  | some (some _) => true
  | _ => false

/-- `isManagedConfig`: precomposed, or none of the other classes. -/
def isManagedConfig (c : GatewayConfig) : Bool :=
  isPrecomposedManagedConfig c ||
    (!isRemoteConfig c && !isLocalConfig c && !isCsdlConfig c &&
      !isManuallyManagedConfig c)

/-- `isStaticConfig`: local or csdl. -/
def isStaticConfig (c : GatewayConfig) : Bool :=
  isLocalConfig c || isCsdlConfig c

/-- `isDynamicConfig`: remote, managed, or manually managed. -/
def isDynamicConfig (c : GatewayConfig) : Bool :=
  isRemoteConfig c || isManagedConfig c || isManuallyManagedConfig c

/-- A configuration with none of the distinguishing properties. -/
def emptyGatewayConfig : GatewayConfig :=
  ⟨false, false, false, false, false, none⟩

/-! ## Composition and the supergraph builder

Modelled from the spec: `composeServices` (`federation-js`) and the
supergraph SDL renderer are not under `src/`.  `compose` follows §4.2
("merging", entity ownership, keys and field metadata aggregation) and
`buildSupergraphSdl` follows §4.3 (the `@core` applications, the
`join__Graph` enum, `@join__owner`/`@join__type` on entities and
`@join__field` on fields whose metadata is present).  Subgraph type models
are restricted to object types, which carry all the join metadata the
round-trip claim speaks about. -/

/-- A field declaration of a subgraph type (spec §3: name, federation
annotations `external`, `requires`, `provides`). -/
structure SubField where
  name : String
  isExternal : Bool
  requires : Option (List String)
  provides : Option (List String)
deriving DecidableEq

/-- An object type declaration of a subgraph (spec §3: `key` declarations
and the `isExtension` flag). -/
structure SubType where
  name : String
  isExtension : Bool
  keys : List (List String)
  fields : List SubField
deriving DecidableEq

/-- A subgraph: name, endpoint URL, and its type model. -/
structure Subgraph where
  name : String
  url : String
  types : List SubType
deriving DecidableEq

/-- The composed supergraph: the graph table plus types carrying join
metadata, in the same shape `buildComposedSchema` reconstructs. -/
structure Supergraph where
  graphs : GraphMap
  types : List PNamedType
deriving DecidableEq

/-- First-occurrence deduplication of a list of names. -/
def dedupStr : List String → List String
  | [] => []
  | x :: xs => x :: dedupStr (xs.filter (fun y => y ≠ x))
termination_by l => l.length
decreasing_by
  simp only [List.length_cons]
  exact Nat.lt_succ_of_le (List.length_filter_le _ _)

/-- The declarations of a type across the subgraphs, in subgraph order. -/
def declsOf (S : List Subgraph) (tn : String) : List (Subgraph × SubType) :=
  S.filterMap fun sg => (sg.types.find? (fun td => td.name = tn)).map (fun td => (sg, td))

/-- The merged field-name list of a type (union of all declarations,
first-occurrence order). -/
def mergedFieldNames (decls : List (Subgraph × SubType)) : List String :=
  dedupStr (decls.flatMap (fun p => p.2.fields.map SubField.name))

/-- The subgraph resolving a field: the first declaration that declares it
non-externally (spec §3 invariant: the owner of a field is the subgraph
that declares it non-externally). -/
def fieldResolver (decls : List (Subgraph × SubType)) (fn : String) :
    Option (Subgraph × SubField) :=
  decls.findSome? fun p =>
    (p.2.fields.find? (fun fd => fd.name = fn && !fd.isExternal)).map (fun fd => (p.1, fd))

/-- Modelled from the spec (§4.2 with the §4.3 emission rule): field metadata
is attached when the resolving subgraph differs from the type's owner or
when `requires`/`provides` are present, so that the supergraph SDL is
self-describing. -/
def composeField (decls : List (Subgraph × SubType)) (ownerName : String)
    (fn : String) : PField :=
  match fieldResolver decls fn with
  | some (rsg, fd) =>
    if rsg.name ≠ ownerName ∨ fd.requires.isSome ∨ fd.provides.isSome then
      ⟨fn, some ⟨some rsg.name, fd.requires, fd.provides⟩⟩
    else ⟨fn, none⟩
  | none => ⟨fn, none⟩

/-- Modelled from the spec (§4.2): merge one type.  A type is an entity iff
some subgraph declares a `@key` on it; its owner is the subgraph declaring
it non-extended, and its keys multimap collects each declaring subgraph's
key field sets.  A type without keys is a value type and its fields carry
no metadata. -/
def composeType (S : List Subgraph) (tn : String) : PNamedType :=
  let decls := declsOf S tn
  let keyed := decls.filter (fun p => p.2.keys ≠ [])
  match keyed with
  | [] =>
    .obj tn (some .valueType) ((mergedFieldNames decls).map (fun fn => ⟨fn, none⟩))
  | _ :: _ =>
    match decls.find? (fun p => !p.2.isExtension) with
    | some (osg, _) =>
      .obj tn
        (some (.entity osg.name (keyed.map (fun p => (p.1.name, p.2.keys)))))
        ((mergedFieldNames decls).map (composeField decls osg.name))
    | none =>
      .obj tn (some .valueType) ((mergedFieldNames decls).map (fun fn => ⟨fn, none⟩))

/-- Modelled from the spec (§4.2): compose a set of subgraphs into the
supergraph.  The graph table maps a stable enum identifier (here the
subgraph name itself) to the subgraph's name and URL. -/
def compose (S : List Subgraph) : Supergraph :=
  { graphs := S.map (fun sg => (sg.name, ⟨sg.name, sg.url⟩)),
    types := (dedupStr (S.flatMap (fun sg => sg.types.map SubType.name))).map
      (composeType S) }

/-- The enum identifier of a subgraph name in the graph table (the table is a
bijection, spec §3). -/
def enumValueFor (gm : GraphMap) (n : String) : String :=
  match gm.find? (fun p => p.2.name = n) with
  | some p => p.1
  | none => ""

/-- Modelled from the spec (§4.3): render one composed type back to its SDL
definition with `@join__owner`, `@join__type` and `@join__field`
applications. -/
def buildDocObjectType (gm : GraphMap) (name : String)
    (meta : Option FederationTypeMetadata) (fields : List PField) : DocObjectType :=
  { name := name,
    joinOwnerArgs :=
      match meta with
      | some (.entity g _) => some ⟨enumValueFor gm g⟩
      | _ => none,
    joinTypeArgs :=
      match meta with
      | some (.entity _ keys) =>
        keys.flatMap fun p => p.2.map (fun fs => ⟨enumValueFor gm p.1, printFieldSet fs⟩)
      | _ => [],
    fields := fields.map fun f =>
      ⟨f.name,
        f.meta.map fun m =>
          ⟨enumValueFor gm (m.graphName.getD ""),
            m.requires.map printFieldSet, m.provides.map printFieldSet⟩⟩ }

/-- Render one composed type to a document type. -/
def buildDocType (gm : GraphMap) : PNamedType → DocType
  | .obj n meta fs => .obj (buildDocObjectType gm n meta fs)
  | .enum n vs => .enum n (vs.map (fun v => ⟨v, none⟩))
  | .other n => .other n

/-- Modelled from the spec (§4.3): render the supergraph as an SDL document —
the two `@core` feature applications, the `core`/`join__*` directive
definitions, the `join__Graph` enum, and the annotated types. -/
def buildSupergraphSdl (M : Supergraph) : Document :=
  { coreFeatures := ["https://specs.apollo.dev/core/v0.1",
      "https://specs.apollo.dev/join/v0.1"],
    directives := ["core", "join__graph", "join__owner", "join__type", "join__field"],
    types :=
      DocType.enum "join__Graph"
          (M.graphs.map (fun p => ⟨p.1, some p.2⟩)) ::
        M.types.map (buildDocType M.graphs) }

/-- The composed schema `buildComposedSchema` is expected to reconstruct
from `buildSupergraphSdl M`: the same graph table and types, with the
`core`/`join` machinery filtered out of the API schema. -/
def expectedOf (M : Supergraph) : ComposedSchema :=
  { graphs := M.graphs, types := M.types, directives := [] }

/-! ## Well-formedness

The conditions under which a supergraph's SDL rendering is faithful: names
are printable (non-empty, no spaces), the graph table is a bijection, all
referenced graph names are in the table, and no user-schema name collides
with the `core__`/`join__` machinery. -/

/-- A printable GraphQL name: non-empty and without spaces. -/
def wfGName (n : String) : Bool :=
  n != "" && !n.data.contains ' '

/-- A printable field set: non-empty with printable names. -/
def wfFieldSet (fs : List String) : Bool :=
  fs != [] && fs.all wfGName

/-- A printable optional field set. -/
def wfOptFieldSet : Option (List String) → Bool
  | none => true
  | some fs => wfFieldSet fs

/-- A user-schema type name: no `core__`/`join__` feature prefix and not an
introspection name. -/
def goodTypeName (n : String) : Bool :=
  !strStartsWith n "core__" && !strStartsWith n "join__" && !strStartsWith n "__"

/-- Well-formed field metadata over a graph table: the resolving graph is a
known subgraph name and the field sets are printable. -/
def wfFieldMeta (tableNames : List String) : Option FederationFieldMetadata → Bool
  | none => true
  | some m =>
    (match m.graphName with
     | some g => tableNames.contains g
     | none => false) &&
    wfOptFieldSet m.requires && wfOptFieldSet m.provides

/-- Well-formed type metadata over a graph table: the owner and every keyed
subgraph are known names, keys are grouped once per subgraph, groups are
non-empty and field sets printable.  Every object type of a composed
supergraph carries metadata, so `none` is ill-formed. -/
def wfTypeMeta (tableNames : List String) : Option FederationTypeMetadata → Bool
  | none => false
  | some .valueType => true
  | some (.entity g keys) =>
    tableNames.contains g && decide (keys.map Prod.fst).Nodup &&
      keys.all (fun p =>
        tableNames.contains p.1 && p.2 != [] && p.2.all wfFieldSet)

/-- Well-formed composed type over a graph table. -/
def wfPType (tableNames : List String) : PNamedType → Bool
  | .obj n meta fields =>
    goodTypeName n && wfTypeMeta tableNames meta &&
      fields.all (fun f => wfFieldMeta tableNames f.meta)
  | .enum n _ => goodTypeName n
  | .other n => goodTypeName n

/-- The subgraph names of a graph table. -/
def tableNamesOf (gm : GraphMap) : List String :=
  gm.map (fun p => p.2.name)

/-- Well-formed supergraph: the graph table is a bijection (distinct enum
identifiers, distinct subgraph names) and every type is well-formed over
it. -/
def wfSupergraph (M : Supergraph) : Bool :=
  decide (M.graphs.map Prod.fst).Nodup &&
    decide (tableNamesOf M.graphs).Nodup &&
    M.types.all (wfPType (tableNamesOf M.graphs))

/-- Modelled from the spec: a composable set of subgraphs — distinct
subgraph names, printable subgraph and type/field-set names, and no
collision with the feature namespaces. -/
def composable (S : List Subgraph) : Bool :=
  decide (S.map Subgraph.name).Nodup &&
    S.all (fun sg =>
      wfGName sg.name &&
      sg.types.all (fun td =>
        goodTypeName td.name &&
        td.keys.all wfFieldSet &&
        td.fields.all (fun fd =>
          wfOptFieldSet fd.requires && wfOptFieldSet fd.provides)))

/-! ## Lemmas: field-set printing and parsing -/

theorem splitWordsGo_consume (w : List Char) (rest : List Char) :
    ∀ acc, (∀ c ∈ w, c ≠ ' ') →
      splitWordsGo acc (w ++ rest) = splitWordsGo (w.reverse ++ acc) rest := by
  induction w with
  | nil => intro acc _; simp
  | cons c w ih =>
    intro acc h
    have hc : c ≠ ' ' := h c (List.mem_cons_self _ _)
    simp only [List.cons_append, splitWordsGo, if_neg hc, List.append_eq]
    rw [ih (c :: acc) (fun d hd => h d (List.mem_cons_of_mem _ hd))]
    simp

theorem splitWordsGo_print (ws : List (List Char))
    (h : ∀ w ∈ ws, w ≠ [] ∧ ' ' ∉ w) :
    splitWordsGo [] (printFieldSetChars ws) = ws := by
  induction ws with
  | nil => rfl
  | cons w ws ih =>
    obtain ⟨hw, hsp⟩ := h w (List.mem_cons_self _ _)
    have hns : ∀ c ∈ w, c ≠ ' ' := fun c hc he => hsp (he ▸ hc)
    cases ws with
    | nil =>
      have h1 : printFieldSetChars [w] = w ++ [] := by simp [printFieldSetChars]
      rw [h1, splitWordsGo_consume w [] [] hns]
      have hne : (w.reverse ++ []).isEmpty = false := by
        simp [List.isEmpty_iff, hw]
      simp [splitWordsGo, hne, hw]
    | cons w' ws' =>
      have h1 : printFieldSetChars (w :: w' :: ws') =
          w ++ ' ' :: printFieldSetChars (w' :: ws') := rfl
      rw [h1, splitWordsGo_consume w _ [] hns]
      have hne : (w.reverse ++ []).isEmpty = false := by
        simp [List.isEmpty_iff, hw]
      simp only [splitWordsGo, if_pos rfl, hne, Bool.false_eq_true, if_false]
      rw [ih (fun v hv => h v (List.mem_cons_of_mem _ hv))]
      simp

theorem wfGName_data {n : String} (h : wfGName n = true) :
    n.data ≠ [] ∧ ' ' ∉ n.data := by
  rw [wfGName, Bool.and_eq_true] at h
  constructor
  · intro hc
    have : n = "" := by cases n; simp_all
    simp [this] at h
  · have := h.2
    simpa using this

theorem parseFieldSet_printFieldSet {fs : List String} (h : wfFieldSet fs = true) :
    parseFieldSet (printFieldSet fs) = fs := by
  rw [wfFieldSet, Bool.and_eq_true, List.all_eq_true] at h
  show (splitWordsGo [] (String.mk (printFieldSetChars (fs.map String.data))).data).map
      String.mk = fs
  have hdata : (String.mk (printFieldSetChars (fs.map String.data))).data =
      printFieldSetChars (fs.map String.data) := rfl
  rw [hdata, splitWordsGo_print]
  · rw [List.map_map]
    have : (String.mk ∘ String.data) = id := funext fun s => rfl
    simp [this]
  · intro w hw
    obtain ⟨n, hn, rfl⟩ := List.mem_map.mp hw
    exact wfGName_data (h.2 n hn)

theorem printFieldSet_ne_empty {fs : List String} (h : wfFieldSet fs = true) :
    printFieldSet fs ≠ "" := by
  rw [wfFieldSet, Bool.and_eq_true, List.all_eq_true] at h
  obtain ⟨hne, hall⟩ := h
  cases fs with
  | nil => simp at hne
  | cons n fs =>
    have hn := (wfGName_data (hall n (List.mem_cons_self _ _))).1
    intro hc
    have : printFieldSetChars ((n :: fs).map String.data) = [] := congrArg String.data hc
    cases fs with
    | nil => exact hn (by simpa [printFieldSetChars] using this)
    | cons m fs' =>
      have h2 : n.data ++ ' ' :: printFieldSetChars ((m :: fs').map String.data) = [] :=
        this
      simp at h2

theorem truthy_map_parse {o : Option (List String)} (h : wfOptFieldSet o = true) :
    (truthy (o.map printFieldSet)).map parseFieldSet = o := by
  cases o with
  | none => rfl
  | some fs =>
    have hwf : wfFieldSet fs = true := h
    show (truthy (some (printFieldSet fs))).map parseFieldSet = some fs
    rw [truthy, if_neg (printFieldSet_ne_empty hwf)]
    simp [parseFieldSet_printFieldSet hwf]

/-! ## Lemmas: the graph table -/

theorem mapSet_of_not_mem (gm : GraphMap) (k : String) (v : Graph)
    (h : k ∉ gm.map Prod.fst) : mapSet gm k v = gm ++ [(k, v)] := by
  rw [mapSet, if_neg]
  intro hc
  rw [List.any_eq_true] at hc
  obtain ⟨p, hp, he⟩ := hc
  exact h (List.mem_map.mpr ⟨p, hp, (of_decide_eq_true he).symm ▸ rfl⟩)

theorem buildGraphMapGo_ok (gm : GraphMap) :
    ∀ acc, (gm.map Prod.fst).Nodup →
      (∀ k ∈ gm.map Prod.fst, k ∉ acc.map Prod.fst) →
      buildGraphMapGo acc (gm.map (fun p => ⟨p.1, some p.2⟩)) = .ok (acc ++ gm) := by
  induction gm with
  | nil => intro acc _ _; simp [buildGraphMapGo]
  | cons p gm ih =>
    intro acc hnd hdis
    obtain ⟨k, g⟩ := p
    show buildGraphMapGo (mapSet acc k g) (gm.map (fun p => ⟨p.1, some p.2⟩)) = _
    rw [mapSet_of_not_mem acc k g (hdis k (by simp))]
    rw [List.map_cons, List.nodup_cons] at hnd
    rw [ih (acc ++ [(k, g)]) hnd.2]
    · simp
    · intro k' hk'
      simp only [List.map_append, List.mem_append]
      rintro (hc | hc)
      · exact hdis k' (by simp [hk']) hc
      · simp at hc
        exact hnd.1 (hc ▸ hk')

theorem enumValueFor_cons_pos (p : String × Graph) (gm : GraphMap) (n : String)
    (hp : p.2.name = n) : enumValueFor (p :: gm) n = p.1 := by
  simp [enumValueFor, List.find?_cons, hp]

theorem enumValueFor_cons_neg (p : String × Graph) (gm : GraphMap) (n : String)
    (hp : ¬p.2.name = n) : enumValueFor (p :: gm) n = enumValueFor gm n := by
  simp [enumValueFor, List.find?_cons, hp]

theorem lookupGraph_cons_pos (p : String × Graph) (gm : GraphMap) (k : String)
    (hp : p.1 = k) : lookupGraph (p :: gm) k = some p.2 := by
  simp [lookupGraph, List.find?_cons, hp]

theorem lookupGraph_cons_neg (p : String × Graph) (gm : GraphMap) (k : String)
    (hp : ¬p.1 = k) : lookupGraph (p :: gm) k = lookupGraph gm k := by
  simp [lookupGraph, List.find?_cons, hp]

theorem enumValueFor_mem (gm : GraphMap) (n : String)
    (hn : n ∈ tableNamesOf gm) : enumValueFor gm n ∈ gm.map Prod.fst := by
  induction gm with
  | nil => simp [tableNamesOf] at hn
  | cons p gm ih =>
    by_cases hp : p.2.name = n
    · rw [enumValueFor_cons_pos p gm n hp]; simp
    · rw [enumValueFor_cons_neg p gm n hp]
      have hn' : n ∈ tableNamesOf gm := by
        simp only [tableNamesOf, List.map_cons, List.mem_cons] at hn
        exact hn.resolve_left (fun he => hp he.symm)
      simp only [List.map_cons, List.mem_cons]
      exact Or.inr (ih hn')

theorem lookupGraph_enumValueFor (gm : GraphMap)
    (hk : (gm.map Prod.fst).Nodup) (n : String) (hn : n ∈ tableNamesOf gm) :
    ∃ g, lookupGraph gm (enumValueFor gm n) = some g ∧ g.name = n := by
  induction gm with
  | nil => simp [tableNamesOf] at hn
  | cons p gm ih =>
    rw [List.map_cons, List.nodup_cons] at hk
    by_cases hp : p.2.name = n
    · exact ⟨p.2, by rw [enumValueFor_cons_pos p gm n hp,
        lookupGraph_cons_pos p gm p.1 rfl], hp⟩
    · have hn' : n ∈ tableNamesOf gm := by
        simp only [tableNamesOf, List.map_cons, List.mem_cons] at hn
        exact hn.resolve_left (fun he => hp he.symm)
      obtain ⟨g, hg, hgn⟩ := ih hk.2 hn'
      refine ⟨g, ?_, hgn⟩
      rw [enumValueFor_cons_neg p gm n hp]
      have hmem : enumValueFor gm n ∈ gm.map Prod.fst := enumValueFor_mem gm n hn'
      have hne : ¬p.1 = enumValueFor gm n := fun he => hk.1 (he ▸ hmem)
      rw [lookupGraph_cons_neg p gm _ hne]
      exact hg

/-! ## Lemmas: rebuilding the keys multimap -/

theorem addMulti_of_not_mem (k : String) (v : List String) :
    ∀ acc, k ∉ acc.map Prod.fst → addMulti acc k v = acc ++ [(k, [v])] := by
  intro acc
  induction acc with
  | nil => intro _; rfl
  | cons p acc ih =>
    intro h
    obtain ⟨k', vs⟩ := p
    have hne : ¬k' = k := fun he => h (by simp [he])
    show addMulti ((k', vs) :: acc) k v = _
    rw [addMulti, if_neg hne, ih (fun hc => h (List.mem_cons_of_mem _ hc))]
    simp

theorem addMulti_append_entry (k : String) (v : List String) (vs : List (List String))
    (post : List (String × List (List String))) :
    ∀ pre, k ∉ pre.map Prod.fst →
      addMulti (pre ++ (k, vs) :: post) k v = pre ++ (k, vs ++ [v]) :: post := by
  intro pre
  induction pre with
  | nil =>
    intro _
    show addMulti ((k, vs) :: post) k v = _
    rw [addMulti, if_pos rfl]
    rfl
  | cons p pre ih =>
    intro h
    obtain ⟨k', vs'⟩ := p
    have hne : ¬k' = k := fun he => h (by simp [he])
    show addMulti ((k', vs') :: (pre ++ (k, vs) :: post)) k v = _
    rw [addMulti, if_neg hne, ih (fun hc => h (List.mem_cons_of_mem _ hc))]
    simp

theorem foldTypeDirs_group (gm : GraphMap) (tname g : String) (gg : Graph)
    (hlk : lookupGraph gm (enumValueFor gm g) = some gg) (hgn : gg.name = g)
    (rest : List JoinTypeArgs) :
    ∀ fss (vs : List (List String)) pre, (∀ fs ∈ fss, wfFieldSet fs = true) →
      g ∉ pre.map Prod.fst →
      foldTypeDirs gm tname (pre ++ [(g, vs)])
        ((fss.map fun fs => ⟨enumValueFor gm g, printFieldSet fs⟩) ++ rest) =
      foldTypeDirs gm tname (pre ++ [(g, vs ++ fss)]) rest := by
  intro fss
  induction fss with
  | nil => intro vs pre _ _; simp
  | cons fs fss ih =>
    intro vs pre hwf hpre
    show foldTypeDirs gm tname (pre ++ [(g, vs)])
      (⟨enumValueFor gm g, printFieldSet fs⟩ :: _) = _
    rw [foldTypeDirs]
    simp only [hlk, hgn, List.append_eq]
    rw [parseFieldSet_printFieldSet (hwf fs (List.mem_cons_self _ _)),
      addMulti_append_entry g fs vs [] pre hpre,
      ih (vs ++ [fs]) pre (fun fs' h' => hwf fs' (List.mem_cons_of_mem _ h')) hpre]
    simp

theorem foldTypeDirs_groups (gm : GraphMap) (tname : String)
    (hgm : (gm.map Prod.fst).Nodup) :
    ∀ keys (acc : List (String × List (List String))),
      (∀ p ∈ keys, p.1 ∈ tableNamesOf gm ∧ p.2 ≠ [] ∧ ∀ fs ∈ p.2, wfFieldSet fs = true) →
      (keys.map Prod.fst).Nodup →
      (∀ p ∈ keys, p.1 ∉ acc.map Prod.fst) →
      foldTypeDirs gm tname acc
        (keys.flatMap fun p => p.2.map fun fs => ⟨enumValueFor gm p.1, printFieldSet fs⟩) =
      .ok (acc ++ keys) := by
  intro keys
  induction keys with
  | nil => intro acc _ _ _; simp [foldTypeDirs]
  | cons q keys ih =>
    intro acc hwf hnd hdis
    obtain ⟨g, fss⟩ := q
    obtain ⟨hmem, hne, hfs⟩ := hwf (g, fss) (List.mem_cons_self _ _)
    obtain ⟨gg, hlk, hgn⟩ := lookupGraph_enumValueFor gm hgm g hmem
    rw [List.map_cons, List.nodup_cons] at hnd
    cases fss with
    | nil => exact absurd rfl hne
    | cons f0 fs' =>
      rw [List.flatMap_cons, List.map_cons, List.cons_append]
      show foldTypeDirs gm tname acc (⟨enumValueFor gm g, printFieldSet f0⟩ :: _) = _
      rw [foldTypeDirs]
      simp only [hlk, hgn, List.append_eq]
      rw [parseFieldSet_printFieldSet (hfs f0 (List.mem_cons_self _ _)),
        addMulti_of_not_mem g f0 acc (hdis (g, f0 :: fs') (List.mem_cons_self _ _))]
      have hpre : g ∉ acc.map Prod.fst := hdis (g, f0 :: fs') (List.mem_cons_self _ _)
      have := foldTypeDirs_group gm tname g gg hlk hgn
        (keys.flatMap fun p => p.2.map fun fs => ⟨enumValueFor gm p.1, printFieldSet fs⟩)
        fs' [f0] acc (fun fs h' => hfs fs (List.mem_cons_of_mem _ h')) hpre
      rw [this]
      rw [ih (acc ++ [(g, [f0] ++ fs')])
        (fun p hp => hwf p (List.mem_cons_of_mem _ hp)) hnd.2 ?_]
      · simp
      · intro p hp
        simp only [List.map_append, List.mem_append]
        rintro (hc | hc)
        · exact hdis p (List.mem_cons_of_mem _ hp) hc
        · simp at hc
          exact hnd.1 (hc ▸ (List.mem_map.mpr ⟨p, hp, rfl⟩))

/-! ## Lemmas: the round-trip through `buildComposedSchema` -/

theorem processField_build (gm : GraphMap) (hgm : (gm.map Prod.fst).Nodup)
    (f : PField) (hwf : wfFieldMeta (tableNamesOf gm) f.meta = true) :
    processField gm
      ⟨f.name, f.meta.map fun m =>
        ⟨enumValueFor gm (m.graphName.getD ""),
          m.requires.map printFieldSet, m.provides.map printFieldSet⟩⟩ = f := by
  obtain ⟨name, meta⟩ := f
  cases meta with
  | none => rfl
  | some m =>
    simp only [wfFieldMeta, Bool.and_eq_true] at hwf
    cases hg : m.graphName with
    | none => rw [hg] at hwf; simp at hwf
    | some g =>
      rw [hg] at hwf
      have hmem : g ∈ tableNamesOf gm := by
        have := hwf.1.1
        simpa using this
      obtain ⟨gg, hlk, hgn⟩ := lookupGraph_enumValueFor gm hgm g hmem
      have hgd : m.graphName.getD "" = g := by rw [hg]; rfl
      show processField gm ⟨name, some ⟨enumValueFor gm (m.graphName.getD ""), _, _⟩⟩ = _
      rw [processField, hgd]
      simp only [hlk]
      rw [truthy_map_parse hwf.1.2, truthy_map_parse hwf.2]
      have hm : (⟨Option.map Graph.name (some gg), m.requires, m.provides⟩ :
          FederationFieldMetadata) = m := by
        rw [Option.map_some', hgn, ← hg]
      rw [hm]

theorem mapExcept_map_ok {α β : Type} (f : β → Except CompError α) (g : α → β) :
    ∀ l, (∀ a ∈ l, f (g a) = .ok a) → mapExcept f (l.map g) = .ok l := by
  intro l
  induction l with
  | nil => intro _; rfl
  | cons a l ih =>
    intro h
    rw [List.map_cons, mapExcept, h a (List.mem_cons_self _ _),
      ih (fun b hb => h b (List.mem_cons_of_mem _ hb))]

theorem processObj_build (gm : GraphMap) (hgm : (gm.map Prod.fst).Nodup)
    (n : String) (meta : Option FederationTypeMetadata) (fields : List PField)
    (hwf : wfPType (tableNamesOf gm) (.obj n meta fields) = true) :
    processObj gm (buildDocObjectType gm n meta fields) = .ok (.obj n meta fields) := by
  simp only [wfPType, Bool.and_eq_true, List.all_eq_true] at hwf
  obtain ⟨⟨hgood, hmeta⟩, hfields⟩ := hwf
  simp only [goodTypeName, Bool.and_eq_true, Bool.not_eq_true'] at hgood
  have hfieldsEq :
      (fields.map fun f =>
        (⟨f.name, f.meta.map fun m =>
          ⟨enumValueFor gm (m.graphName.getD ""),
            m.requires.map printFieldSet, m.provides.map printFieldSet⟩⟩ : DocField)).map
        (processField gm) = fields := by
    rw [List.map_map]
    have : ∀ f ∈ fields,
        (processField gm ∘ fun f : PField =>
          (⟨f.name, f.meta.map fun m =>
            ⟨enumValueFor gm (m.graphName.getD ""),
              m.requires.map printFieldSet, m.provides.map printFieldSet⟩⟩ : DocField)) f =
          id f :=
      fun f hf => processField_build gm hgm f (hfields f hf)
    rw [List.map_congr_left this, List.map_id]
  cases meta with
  | none => simp [wfTypeMeta] at hmeta
  | some tm =>
    cases tm with
    | valueType =>
      show processObj gm ⟨n, none, [], _⟩ = _
      rw [processObj, if_neg (by simp [hgood.2])]
      simp only [List.isEmpty_nil, if_true]
      rw [hfieldsEq]
    | entity g keys =>
      simp only [wfTypeMeta, Bool.and_eq_true, List.all_eq_true] at hmeta
      obtain ⟨⟨hgmem, hknd⟩, hkeys⟩ := hmeta
      have hgmem' : g ∈ tableNamesOf gm := by simpa using hgmem
      obtain ⟨gg, hlk, hgn⟩ := lookupGraph_enumValueFor gm hgm g hgmem'
      show processObj gm ⟨n, some ⟨enumValueFor gm g⟩, _, _⟩ = _
      rw [processObj, if_neg (by simp [hgood.2])]
      simp only [hlk]
      rw [foldTypeDirs_groups gm n hgm keys []
        (fun p hp => by
          have := hkeys p hp
          exact ⟨by simpa using this.1.1, by simpa using this.1.2, this.2⟩)
        (of_decide_eq_true hknd) (by simp)]
      rw [hfieldsEq, hgn]
      rfl

theorem processDocType_build (gm : GraphMap) (hgm : (gm.map Prod.fst).Nodup)
    (t : PNamedType) (hwf : wfPType (tableNamesOf gm) t = true) :
    processDocType gm (buildDocType gm t) = .ok t := by
  cases t with
  | obj n meta fields => exact processObj_build gm hgm n meta fields hwf
  | enum n vs =>
    show (Except.ok (PNamedType.enum n
        ((vs.map fun v => (⟨v, none⟩ : DocEnumValue)).map DocEnumValue.name)) :
      Except CompError PNamedType) = Except.ok (PNamedType.enum n vs)
    rw [List.map_map]
    have hid : (DocEnumValue.name ∘ fun v => (⟨v, none⟩ : DocEnumValue)) = id :=
      funext fun v => rfl
    rw [hid, List.map_id]
  | other n => rfl

theorem wfPType_isExported (tableNames : List String) (t : PNamedType)
    (hwf : wfPType tableNames t = true) :
    isExportedTypeName (PNamedType.typeName t) = true := by
  have hgood : goodTypeName (PNamedType.typeName t) = true := by
    cases t with
    | obj n meta fields =>
      simp only [wfPType, Bool.and_eq_true] at hwf
      exact hwf.1.1
    | enum n vs => exact hwf
    | other n => exact hwf
  simp only [goodTypeName, Bool.and_eq_true, Bool.not_eq_true'] at hgood
  simp [isExportedTypeName, hgood.1.1, hgood.1.2]

/-- Round-trip through the supergraph SDL: parsing the rendered document
reconstructs the supergraph's graph table, types and metadata exactly, with
the `core`/`join` machinery filtered out of the API schema. -/
theorem buildComposedSchema_build (M : Supergraph) (h : wfSupergraph M = true) :
    buildComposedSchema (buildSupergraphSdl M) = .ok (expectedOf M) := by
  simp only [wfSupergraph, Bool.and_eq_true, List.all_eq_true] at h
  obtain ⟨⟨hk, hn⟩, hts⟩ := h
  have hk' := of_decide_eq_true hk
  have h1 : ingestPrelude (buildSupergraphSdl M) =
      buildGraphMapGo [] (M.graphs.map fun p => ⟨p.1, some p.2⟩) := rfl
  have h2 : ingestPrelude (buildSupergraphSdl M) = .ok M.graphs := by
    rw [h1, buildGraphMapGo_ok M.graphs [] hk' (by simp)]
    rfl
  rw [buildComposedSchema]
  have h3 : mapExcept (processDocType M.graphs) (buildSupergraphSdl M).types =
      .ok (.enum "join__Graph" (M.graphs.map Prod.fst) :: M.types) := by
    show mapExcept (processDocType M.graphs)
      (DocType.enum "join__Graph" (M.graphs.map fun p => ⟨p.1, some p.2⟩) ::
        M.types.map (buildDocType M.graphs)) = _
    rw [mapExcept]
    have he : processDocType M.graphs
        (DocType.enum "join__Graph" (M.graphs.map fun p => ⟨p.1, some p.2⟩)) =
        .ok (.enum "join__Graph" (M.graphs.map Prod.fst)) := by
      show Except.ok (PNamedType.enum "join__Graph"
        ((M.graphs.map fun p => (⟨p.1, some p.2⟩ : DocEnumValue)).map
          DocEnumValue.name)) = _
      rw [List.map_map]
      rfl
    rw [he, mapExcept_map_ok (processDocType M.graphs) (buildDocType M.graphs) M.types
      (fun t ht => processDocType_build M.graphs hk' t (hts t ht))]
  have h4 : (PNamedType.enum "join__Graph" (M.graphs.map Prod.fst) :: M.types).filter
      (fun t => isExportedTypeName (PNamedType.typeName t)) = M.types := by
    have hne : isExportedTypeName (PNamedType.typeName
        (PNamedType.enum "join__Graph" (M.graphs.map Prod.fst))) = false := by
      show isExportedTypeName "join__Graph" = false
      decide
    simp only [List.filter_cons, hne, Bool.false_eq_true, if_false]
    exact List.filter_eq_self.mpr (fun t ht => wfPType_isExported _ t (hts t ht))
  simp only [h2, h3, h4]
  rfl

/-! ## Lemmas: composability gives a well-formed supergraph -/

theorem mem_dedupStr {x : String} : ∀ {l : List String}, x ∈ dedupStr l → x ∈ l := by
  intro l
  induction l using dedupStr.induct with
  | case1 => intro h; rw [dedupStr] at h; exact absurd h (List.not_mem_nil x)
  | case2 y ys ih =>
    intro h
    rw [dedupStr] at h
    rcases List.mem_cons.mp h with he | hm
    · exact he ▸ List.mem_cons_self _ _
    · exact List.mem_cons_of_mem _ (List.mem_of_mem_filter (ih hm))

theorem declsOf_mem {S : List Subgraph} {tn : String} {p : Subgraph × SubType}
    (h : p ∈ declsOf S tn) : p.1 ∈ S ∧ p.2 ∈ p.1.types ∧ p.2.name = tn := by
  obtain ⟨sg, hsg, hf⟩ := List.mem_filterMap.mp h
  cases hfd : sg.types.find? (fun td => td.name = tn) with
  | none => rw [hfd] at hf; simp at hf
  | some td =>
    rw [hfd] at hf
    simp only [Option.map_some'] at hf
    injection hf with hf
    subst hf
    have hname : td.name = tn := by
      have := List.find?_some hfd
      simpa using this
    exact ⟨hsg, List.mem_of_find?_eq_some hfd, hname⟩

theorem declsOf_fst_sublist (S : List Subgraph) (tn : String) :
    ((declsOf S tn).map Prod.fst).Sublist S := by
  induction S with
  | nil => simp [declsOf]
  | cons sg S ih =>
    rw [declsOf, List.filterMap_cons]
    cases hfd : sg.types.find? (fun td => td.name = tn) with
    | none =>
      simp only [Option.map_none']
      exact List.Sublist.cons sg ih
    | some td =>
      simp only [Option.map_some']
      rw [List.map_cons]
      exact List.Sublist.cons₂ sg ih

theorem fieldResolver_mem {decls : List (Subgraph × SubType)} {fn : String}
    {rsg : Subgraph} {fd : SubField}
    (h : fieldResolver decls fn = some (rsg, fd)) :
    ∃ p ∈ decls, p.1 = rsg ∧ fd ∈ p.2.fields := by
  obtain ⟨p, hp, hf⟩ := List.exists_of_findSome?_eq_some h
  cases hfd : p.2.fields.find? (fun fd => fd.name = fn && !fd.isExternal) with
  | none => rw [hfd] at hf; simp at hf
  | some fd' =>
    rw [hfd] at hf
    simp only [Option.map_some'] at hf
    injection hf with hf
    have h1 : p.1 = rsg := congrArg Prod.fst hf
    have h2 : fd' = fd := congrArg Prod.snd hf
    exact ⟨p, hp, h1, h2 ▸ List.mem_of_find?_eq_some hfd⟩

theorem composeType_wf (S : List Subgraph) (h : composable S = true) (tn : String)
    (htn : tn ∈ dedupStr (S.flatMap (fun sg => sg.types.map SubType.name))) :
    wfPType (S.map Subgraph.name) (composeType S tn) = true := by
  simp only [composable, Bool.and_eq_true, List.all_eq_true] at h
  obtain ⟨hnd, hsub⟩ := h
  have hgood : goodTypeName tn = true := by
    have := mem_dedupStr htn
    obtain ⟨sg, hsg, htd⟩ := List.mem_flatMap.mp this
    obtain ⟨td, htd', rfl⟩ := List.mem_map.mp htd
    exact ((hsub sg hsg).2 td htd').1.1
  have hplain : ∀ (fns : List String),
      ((fns.map fun fn => (⟨fn, none⟩ : PField)).all
        (fun f => wfFieldMeta (S.map Subgraph.name) f.meta)) = true := by
    intro fns
    rw [List.all_eq_true]
    intro f hf
    obtain ⟨fn, _, rfl⟩ := List.mem_map.mp hf
    rfl
  simp only [composeType]
  cases hkey : (declsOf S tn).filter (fun p => p.2.keys ≠ []) with
  | nil =>
    simp only [wfPType, Bool.and_eq_true]
    exact ⟨⟨hgood, rfl⟩, hplain _⟩
  | cons q keyed' =>
    cases hown : (declsOf S tn).find? (fun p => !p.2.isExtension) with
    | none =>
      simp only [wfPType, Bool.and_eq_true]
      exact ⟨⟨hgood, rfl⟩, hplain _⟩
    | some po =>
      obtain ⟨osg, otd⟩ := po
      simp only [wfPType, Bool.and_eq_true]
      refine ⟨⟨hgood, ?_⟩, ?_⟩
      · simp only [wfTypeMeta, Bool.and_eq_true]
        have hosgS : osg ∈ S := (declsOf_mem (List.mem_of_find?_eq_some hown)).1
        refine ⟨⟨?_, ?_⟩, ?_⟩
        · simpa using List.mem_map.mpr ⟨osg, hosgS, rfl⟩
        · apply decide_eq_true
          have h1 : ((q :: keyed').map (fun p => (p.1.name, p.2.keys))).map Prod.fst =
              ((q :: keyed').map Prod.fst).map Subgraph.name := by
            rw [List.map_map, List.map_map]
            exact List.map_congr_left (fun p _ => rfl)
          rw [h1]
          have hsublist : ((q :: keyed').map Prod.fst).Sublist S := by
            rw [← hkey]
            exact ((List.filter_sublist _).map Prod.fst).trans (declsOf_fst_sublist S tn)
          exact List.Nodup.sublist (hsublist.map Subgraph.name) (of_decide_eq_true hnd)
        · rw [List.all_eq_true]
          intro p' hp'
          obtain ⟨q', hq', rfl⟩ := List.mem_map.mp hp'
          have hq'f : q' ∈ (declsOf S tn).filter (fun p => p.2.keys ≠ []) := by
            rw [hkey]; exact hq'
          have hq'decls : q' ∈ declsOf S tn := List.mem_of_mem_filter hq'f
          have hpred := List.of_mem_filter hq'f
          obtain ⟨hq1S, hq2mem, _⟩ := declsOf_mem hq'decls
          simp only [Bool.and_eq_true]
          refine ⟨⟨?_, ?_⟩, ?_⟩
          · simpa using List.mem_map.mpr ⟨q'.1, hq1S, rfl⟩
          · exact bne_iff_ne.mpr (of_decide_eq_true hpred)
          · rw [List.all_eq_true]
            exact fun fs hfs => ((hsub q'.1 hq1S).2 q'.2 hq2mem).1.2 fs hfs
      · rw [List.all_eq_true]
        intro f hf
        obtain ⟨fn, _, rfl⟩ := List.mem_map.mp hf
        cases hres : fieldResolver (declsOf S tn) fn with
        | none =>
          rw [composeField, hres]
          rfl
        | some pr =>
          obtain ⟨rsg, fd⟩ := pr
          rw [composeField, hres]
          obtain ⟨p, hpdecls, hp1, hfdmem⟩ := fieldResolver_mem hres
          obtain ⟨hpS, hptypes, _⟩ := declsOf_mem hpdecls
          have hrsgS : rsg ∈ S := hp1 ▸ hpS
          have hfd := ((hsub p.1 hpS).2 p.2 hptypes).2 fd hfdmem
          by_cases hc : rsg.name ≠ osg.name ∨ fd.requires.isSome = true ∨
            fd.provides.isSome = true
          · simp only [hc, if_true, wfFieldMeta, Bool.and_eq_true]
            refine ⟨⟨?_, hfd.1⟩, hfd.2⟩
            simpa using List.mem_map.mpr ⟨rsg, hrsgS, rfl⟩
          · simp only [hc, if_false, wfFieldMeta]

theorem composable_wf (S : List Subgraph) (h : composable S = true) :
    wfSupergraph (compose S) = true := by
  have hnd : (S.map Subgraph.name).Nodup := by
    have h' := h
    simp only [composable, Bool.and_eq_true] at h'
    exact of_decide_eq_true h'.1
  have hfst : (compose S).graphs.map Prod.fst = S.map Subgraph.name := by
    show (S.map fun sg => (sg.name, (⟨sg.name, sg.url⟩ : Graph))).map Prod.fst = _
    rw [List.map_map]
    exact List.map_congr_left (fun sg _ => rfl)
  have htbl : tableNamesOf (compose S).graphs = S.map Subgraph.name := by
    show (S.map fun sg => (sg.name, (⟨sg.name, sg.url⟩ : Graph))).map (fun p => p.2.name) = _
    rw [List.map_map]
    exact List.map_congr_left (fun sg _ => rfl)
  simp only [wfSupergraph, Bool.and_eq_true]
  refine ⟨⟨?_, ?_⟩, ?_⟩
  · rw [hfst]; exact decide_eq_true hnd
  · rw [htbl]; exact decide_eq_true hnd
  · rw [List.all_eq_true]
    intro t ht
    rw [htbl]
    obtain ⟨tn, htn, rfl⟩ := List.mem_map.mp ht
    exact composeType_wf S h tn htn

/-! ## Lemmas: error propagation through ingest -/

/-- The two feature URLs accepted by the feature check. -/
def allowedFeature (f : String) : Prop :=
  f = "https://specs.apollo.dev/core/v0.1" ∨ f = "https://specs.apollo.dev/join/v0.1"

instance (f : String) : Decidable (allowedFeature f) := by
  unfold allowedFeature; infer_instance

theorem checkCoreFeaturesGo_ok :
    ∀ l, (∀ f ∈ l, allowedFeature f) → checkCoreFeaturesGo l = .ok () := by
  intro l
  induction l with
  | nil => intro _; rfl
  | cons f l ih =>
    intro h
    have hf := h f (List.mem_cons_self _ _)
    unfold allowedFeature at hf
    rw [checkCoreFeaturesGo, if_pos hf]
    exact ih (fun g hg => h g (List.mem_cons_of_mem _ hg))

theorem checkCoreFeaturesGo_error :
    ∀ l, (∃ f ∈ l, ¬allowedFeature f) →
      ∃ f', f' ∈ l ∧ ¬allowedFeature f' ∧
        checkCoreFeaturesGo l =
          .error (.graphqlError ("Unsupported core schema feature and/or version: " ++ f') none) := by
  intro l
  induction l with
  | nil => rintro ⟨f, hf, _⟩; exact absurd hf (List.not_mem_nil f)
  | cons f l ih =>
    rintro ⟨g, hg, hbad⟩
    by_cases hf : allowedFeature f
    · have hgl : g ∈ l := by
        rcases List.mem_cons.mp hg with rfl | h'
        · exact absurd hf hbad
        · exact h'
      obtain ⟨f', hf', hbad', heq⟩ := ih ⟨g, hgl, hbad⟩
      refine ⟨f', List.mem_cons_of_mem _ hf', hbad', ?_⟩
      unfold allowedFeature at hf
      rw [checkCoreFeaturesGo, if_pos hf]
      exact heq
    · refine ⟨f, List.mem_cons_self _ _, hf, ?_⟩
      unfold allowedFeature at hf
      rw [checkCoreFeaturesGo, if_neg hf]

theorem foldTypeDirs_error_shape (gm : GraphMap) (tname : String) :
    ∀ ds (acc : List (String × List (List String))) e,
      foldTypeDirs gm tname acc ds = .error e → ∃ m, e = .assertion m := by
  intro ds
  induction ds with
  | nil => intro acc e h; rw [foldTypeDirs] at h; exact absurd h (by simp)
  | cons d ds ih =>
    intro acc e h
    rw [foldTypeDirs] at h
    cases hlk : lookupGraph gm d.graph with
    | none =>
      simp only [hlk] at h
      injection h with h
      exact ⟨_, h.symm⟩
    | some g =>
      simp only [hlk] at h
      exact ih _ e h

theorem foldTypeDirs_ok_exists (gm : GraphMap) (tname : String) :
    ∀ ds (acc : List (String × List (List String))),
      (∀ d ∈ ds, (lookupGraph gm d.graph).isSome = true) →
      ∃ ks, foldTypeDirs gm tname acc ds = .ok ks := by
  intro ds
  induction ds with
  | nil => intro acc _; exact ⟨acc, rfl⟩
  | cons d ds ih =>
    intro acc h
    cases hlk : lookupGraph gm d.graph with
    | none => exact absurd (hlk ▸ h d (List.mem_cons_self _ _)) (by simp)
    | some g =>
      obtain ⟨ks, hks⟩ := ih (addMulti acc g.name (parseFieldSet d.key))
        (fun d' hd' => h d' (List.mem_cons_of_mem _ hd'))
      refine ⟨ks, ?_⟩
      rw [foldTypeDirs]
      simp only [hlk]
      exact hks

theorem foldTypeDirs_error_of_mem (gm : GraphMap) (tname : String) :
    ∀ ds (acc : List (String × List (List String))) (d : JoinTypeArgs), d ∈ ds →
      lookupGraph gm d.graph = none →
      ∃ e, foldTypeDirs gm tname acc ds = .error e := by
  intro ds
  induction ds with
  | nil => intro acc d hd _; exact absurd hd (List.not_mem_nil d)
  | cons d' ds ih =>
    intro acc d hd hlk
    cases hlk' : lookupGraph gm d'.graph with
    | none =>
      refine ⟨.assertion ("GraphQL type \"" ++ tname ++
        "\" must provide a `graph` argument to the @join__type directive"), ?_⟩
      rw [foldTypeDirs]
      simp only [hlk']
    | some g =>
      have hds : d ∈ ds := by
        rcases List.mem_cons.mp hd with rfl | h'
        · rw [hlk] at hlk'; exact absurd hlk' (by simp)
        · exact h'
      obtain ⟨e, he⟩ := ih (addMulti acc g.name (parseFieldSet d'.key)) d hds hlk
      refine ⟨e, ?_⟩
      rw [foldTypeDirs]
      simp only [hlk']
      exact he

theorem processObj_error_shape (gm : GraphMap) (t : DocObjectType) (e : CompError)
    (h : processObj gm t = .error e) : ∃ m, e = .assertion m := by
  rw [processObj] at h
  by_cases hin : strStartsWith t.name "__" = true
  · rw [if_pos hin] at h
    exact absurd h (by simp)
  · rw [if_neg hin] at h
    cases ho : t.joinOwnerArgs with
    | some oa =>
      simp only [ho] at h
      cases hlk : lookupGraph gm oa.graph with
      | none =>
        simp only [hlk] at h
        injection h with h
        exact ⟨_, h.symm⟩
      | some g =>
        simp only [hlk] at h
        cases hft : foldTypeDirs gm t.name [] t.joinTypeArgs with
        | error e' =>
          simp only [hft] at h
          injection h with h
          exact h ▸ foldTypeDirs_error_shape gm t.name t.joinTypeArgs [] e' hft
        | ok keys =>
          simp only [hft] at h
          exact absurd h (by simp)
    | none =>
      simp only [ho] at h
      by_cases hemp : t.joinTypeArgs.isEmpty = true
      · rw [if_pos hemp] at h
        exact absurd h (by simp)
      · rw [if_neg hemp] at h
        injection h with h
        exact ⟨_, h.symm⟩

theorem processDocType_error_shape (gm : GraphMap) (dt : DocType) (e : CompError)
    (h : processDocType gm dt = .error e) : ∃ m, e = .assertion m := by
  cases dt with
  | obj t => exact processObj_error_shape gm t e h
  | enum n vs => exact absurd h (by simp [processDocType])
  | other n => exact absurd h (by simp [processDocType])

theorem mapExcept_error_of_mem {α β : Type} (f : α → Except CompError β) :
    ∀ (l : List α) (a : α) (e : CompError), a ∈ l → f a = .error e →
      ∃ b ∈ l, ∃ e', f b = .error e' ∧ mapExcept f l = .error e' := by
  intro l
  induction l with
  | nil => intro a e ha _; exact absurd ha (List.not_mem_nil a)
  | cons x xs ih =>
    intro a e ha hfa
    cases hfx : f x with
    | error e' =>
      refine ⟨x, List.mem_cons_self _ _, e', hfx, ?_⟩
      rw [mapExcept]
      simp only [hfx]
    | ok b =>
      have hxs : a ∈ xs := by
        rcases List.mem_cons.mp ha with rfl | h'
        · rw [hfa] at hfx; exact absurd hfx (by simp)
        · exact h'
      obtain ⟨b', hb', e', hfb', hmap⟩ := ih a e hxs hfa
      refine ⟨b', List.mem_cons_of_mem _ hb', e', hfb', ?_⟩
      rw [mapExcept]
      simp only [hfx, hmap]

/-! ## Lemmas: validation passes -/

theorem length_flatMap_eq_sum {α β : Type} (l : List α) (f : α → List β) (g : α → Nat)
    (h : ∀ a ∈ l, (f a).length = g a) : (l.flatMap f).length = (l.map g).sum := by
  induction l with
  | nil => rfl
  | cons a l ih =>
    rw [List.flatMap_cons, List.length_append, List.map_cons, List.sum_cons,
      h a (List.mem_cons_self _ _), ih (fun b hb => h b (List.mem_cons_of_mem _ hb))]

theorem errsForKeyField_length (t : ValType) (svc fname : String) :
    (errsForKeyField t svc fname).length = violCountForKeyField t fname := by
  rw [errsForKeyField, violCountForKeyField]
  cases lookupField t.fields fname with
  | none => rfl
  | some fty =>
    by_cases hA : (isInterfaceType fty ||
        (isNonNullType fty && isInterfaceType (getNullableType fty))) = true <;>
      by_cases hB : (isUnionType fty ||
          (isNonNullType fty && isUnionType (getNullableType fty))) = true <;>
      simp [hA, hB]

theorem errsForKeyField_code (t : ValType) (svc fname : String) (e : ValError)
    (he : e ∈ errsForKeyField t svc fname) : e.code = "KEY_FIELDS_SELECT_INVALID_TYPE" := by
  rw [errsForKeyField] at he
  cases hlf : lookupField t.fields fname with
  | none =>
    rw [hlf] at he
    simp at he
    rw [he]
  | some fty =>
    rw [hlf] at he
    rcases List.mem_append.mp he with h' | h' <;> split at h' <;> simp_all

theorem errsForKeyField_mem_output (schema : List ValType) (l : List Service)
    {t : ValType} {ks : List (String × List (List String))}
    {p : String × List (List String)} {sel : List String} {fname : String} {e : ValError}
    (ht : t ∈ schema) (hobj : t.isObjectType = true) (hkeys : t.keys = some ks)
    (hp : p ∈ ks) (hsel : sel ∈ p.2) (hfn : fname ∈ sel)
    (he : e ∈ errsForKeyField t p.1 fname) :
    e ∈ keyFieldsSelectInvalidType schema l := by
  rw [keyFieldsSelectInvalidType]
  refine List.mem_flatMap.mpr ⟨t, ht, ?_⟩
  simp only [hobj, Bool.not_true, Bool.false_eq_true, if_false, hkeys]
  refine List.mem_flatMap.mpr ⟨p, hp, ?_⟩
  refine List.mem_flatMap.mpr ⟨sel, hsel, ?_⟩
  exact List.mem_flatMap.mpr ⟨fname, hfn, he⟩

theorem providesErrsForField_length (schema : List PSType) (tname : String)
    (f : PSField) :
    (providesErrsForField schema tname f).length = providesViolCountForField schema f := by
  rw [providesErrsForField, providesViolCountForField]
  cases f.serviceName with
  | none => rfl
  | some svc =>
    cases f.provides with
    | none => rfl
    | some fs =>
      cases findPSType schema f.returnType with
      | none => rfl
      | some base =>
        apply length_flatMap_eq_sum
        intro pname _
        by_cases hc : (svc, pname) ∈ base.externals <;> simp [hc]

theorem providesErrsForField_code (schema : List PSType) (tname : String)
    (f : PSField) (e : ValError) (he : e ∈ providesErrsForField schema tname f) :
    e.code = "PROVIDES_FIELDS_MISSING_EXTERNAL" := by
  rw [providesErrsForField] at he
  cases hs : f.serviceName with
  | none => simp only [hs] at he; simp at he
  | some svc =>
    cases hp : f.provides with
    | none => simp only [hs, hp] at he; simp at he
    | some fs =>
      simp only [hs, hp] at he
      cases hb : findPSType schema f.returnType with
      | none => simp only [hb] at he; simp at he
      | some base =>
        simp only [hb] at he
        obtain ⟨pname, _, he'⟩ := List.mem_flatMap.mp he
        by_cases hc : base.externals.contains (svc, pname) = true
        · rw [if_pos hc] at he'; simp at he'
        · rw [if_neg hc] at he'
          simp at he'
          rw [he']

/-! ## Concrete sample inputs -/

/-- The `products` subgraph of the entity fan-out scenario (spec §8,
Scenario B). -/
def productsSubgraph : Subgraph :=
  { name := "products", url := "http://products",
    types := [
      { name := "Query", isExtension := false, keys := [],
        fields := [⟨"topProducts", false, none, none⟩] },
      { name := "Product", isExtension := false, keys := [["upc"]],
        fields := [⟨"upc", false, none, none⟩, ⟨"name", false, none, none⟩] } ] }

/-- The `reviews` subgraph of the entity fan-out scenario (spec §8,
Scenario B), with a `@provides` on `Review.author`. -/
def reviewsSubgraph : Subgraph :=
  { name := "reviews", url := "http://reviews",
    types := [
      { name := "Product", isExtension := true, keys := [["upc"]],
        fields := [⟨"upc", true, none, none⟩, ⟨"reviews", false, none, none⟩] },
      { name := "Review", isExtension := false, keys := [],
        fields := [⟨"body", false, none, none⟩,
          ⟨"author", false, none, some ["username"]⟩] } ] }

/-- A two-subgraph composable system. -/
def sampleSubgraphs : List Subgraph := [productsSubgraph, reviewsSubgraph]

/-- A supergraph SDL document declaring an unsupported `@core` feature. -/
def badFeatureDoc : Document :=
  { coreFeatures := ["https://specs.apollo.dev/core/v0.1",
      "https://specs.apollo.dev/tag/v0.1"],
    directives := ["core", "join__graph", "join__owner", "join__type", "join__field"],
    types := [DocType.enum "join__Graph" [⟨"A", some ⟨"accounts", "http://accounts"⟩⟩]] }

/-- Composed-schema input for the key validator: a `@key` selecting a
list-typed field. -/
def listKeySchema : List ValType :=
  [{ name := "Product", isObjectType := true,
     fields := [("ids", GType.list (GType.scalar "ID"))],
     keys := some [("serviceA", [["ids"]])] }]

/-- Composed-schema input: a `@key` selecting a field missing from the
composed type. -/
def missingKeySchema : List ValType :=
  [{ name := "Product", isObjectType := true,
     fields := [("upc", GType.scalar "String")],
     keys := some [("serviceA", [["uuid"]])] }]

/-- Composed-schema input: a `@key` selecting a union-typed field (spec §8,
Scenario E). -/
def unionKeySchema : List ValType :=
  [{ name := "Product", isObjectType := true,
     fields := [("category", GType.union "Category")],
     keys := some [("serviceA", [["category"]])] }]

/-- The service list accompanying the validator inputs. -/
def sampleServiceList : List Service := [⟨"serviceA"⟩]

/-- Provides-validator input with one missing `@external` (shape of the
failing test case). -/
def sampleProvidesSchema : List PSType :=
  [{ name := "Review",
     fields := [⟨"product", "Product", some "serviceB", some ["id"]⟩],
     externals := [] },
   { name := "Product",
     fields := [⟨"sku", "Product", none, none⟩],
     externals := [("serviceB", "sku")] }]

/-- A supergraph document with an unknown graph in `@join__owner`. -/
def unknownOwnerDoc : Document :=
  { coreFeatures := ["https://specs.apollo.dev/core/v0.1",
      "https://specs.apollo.dev/join/v0.1"],
    directives := ["core", "join__graph", "join__owner", "join__type", "join__field"],
    types := [
      DocType.enum "join__Graph" [⟨"A", some ⟨"accounts", "http://accounts"⟩⟩],
      DocType.obj
        { name := "User", joinOwnerArgs := some ⟨"B"⟩, joinTypeArgs := [],
          fields := [⟨"id", none⟩] } ] }

/-- A supergraph document with an unknown graph in `@join__type`. -/
def unknownTypeDirDoc : Document :=
  { coreFeatures := ["https://specs.apollo.dev/core/v0.1",
      "https://specs.apollo.dev/join/v0.1"],
    directives := ["core", "join__graph", "join__owner", "join__type", "join__field"],
    types := [
      DocType.enum "join__Graph" [⟨"A", some ⟨"accounts", "http://accounts"⟩⟩],
      DocType.obj
        { name := "User", joinOwnerArgs := some ⟨"A"⟩,
          joinTypeArgs := [⟨"B", "id"⟩], fields := [⟨"id", none⟩] } ] }

/-- An object type whose `@join__field` names an unknown graph, under a valid
owner. -/
def unknownFieldGraphObj : DocObjectType :=
  { name := "User", joinOwnerArgs := some ⟨"A"⟩, joinTypeArgs := [⟨"A", "id"⟩],
    fields := [⟨"id", some ⟨"B", some "name profile", none⟩⟩] }

/-- The one-entry graph table of the unknown-graph samples. -/
def sampleGraphMap : GraphMap := [("A", ⟨"accounts", "http://accounts"⟩)]

/-- A concrete valid supergraph document (one subgraph, one entity, a user
directive and a feature-namespaced scalar). -/
def sampleSupergraphDoc : Document :=
  { coreFeatures := ["https://specs.apollo.dev/core/v0.1",
      "https://specs.apollo.dev/join/v0.1"],
    directives := ["core", "join__graph", "join__owner", "join__type", "join__field",
      "deprecated"],
    types := [
      DocType.enum "join__Graph" [⟨"PRODUCTS", some ⟨"products", "http://products"⟩⟩],
      DocType.obj
        { name := "Product", joinOwnerArgs := some ⟨"PRODUCTS"⟩,
          joinTypeArgs := [⟨"PRODUCTS", "upc"⟩], fields := [⟨"upc", none⟩] },
      DocType.other "core__Purpose" ] }

/-- The composed schema `buildComposedSchema` produces for
`sampleSupergraphDoc`. -/
def sampleComposedOut : ComposedSchema :=
  { graphs := [("PRODUCTS", ⟨"products", "http://products"⟩)],
    types := [.obj "Product" (some (.entity "products" [("products", [["upc"]])]))
      [⟨"upc", none⟩]],
    directives := ["deprecated"] }

/-! ## Claim theorems -/

/-- Claim C1: round-trip — for every composable set of subgraphs `S`, parsing
(`buildComposedSchema`) the supergraph SDL built from `compose S` succeeds
and yields exactly the schema structure and join metadata of `compose S`:
the graph table, the per-entity owner and keys, and the per-field owning
graph / requires / provides. -/
theorem compose_build_parse_roundtrip (S : List Subgraph)
    (h : composable S = true) :
    buildComposedSchema (buildSupergraphSdl (compose S)) =
      .ok (expectedOf (compose S)) :=
  buildComposedSchema_build (compose S) (composable_wf S h)

/-- Claim C1 witness: the round-trip at the concrete two-subgraph system. -/
theorem compose_build_parse_roundtrip_witness :
    composable sampleSubgraphs = true ∧
    buildComposedSchema (buildSupergraphSdl (compose sampleSubgraphs)) =
      .ok (expectedOf (compose sampleSubgraphs)) :=
  ⟨by decide, compose_build_parse_roundtrip sampleSubgraphs (by decide)⟩

/-- Claim C2 (amended): a supergraph document declaring a `@core` feature
other than `core/v0.1` or `join/v0.1` makes `buildComposedSchema` fail with
a `GraphQLError` that carries no stable error code (the `UNSUPPORTED_FEATURE`
code of the claim is not attached by the source); documents declaring only
the two supported features pass the feature check. -/
theorem ingest_unsupported_feature_fails_without_code :
    (∀ (doc : Document) (f : String), "core" ∈ doc.directives →
      f ∈ doc.coreFeatures → ¬allowedFeature f →
      ∃ f', f' ∈ doc.coreFeatures ∧ ¬allowedFeature f' ∧
        buildComposedSchema doc = .error
          (.graphqlError ("Unsupported core schema feature and/or version: " ++ f') none)) ∧
    (∀ doc : Document, (∀ f ∈ doc.coreFeatures, allowedFeature f) →
      checkCoreFeaturesGo doc.coreFeatures = .ok ()) := by
  constructor
  · intro doc f hcore hf hbad
    obtain ⟨f', hf', hbad', herr⟩ :=
      checkCoreFeaturesGo_error doc.coreFeatures ⟨f, hf, hbad⟩
    refine ⟨f', hf', hbad', ?_⟩
    have hc : checkCoreDirective doc = .ok () := by
      rw [checkCoreDirective, if_pos (by simpa using hcore)]
    have hpre : ingestPrelude doc = .error
        (.graphqlError ("Unsupported core schema feature and/or version: " ++ f') none) := by
      unfold ingestPrelude
      rw [hc, herr]
      rfl
    rw [buildComposedSchema]
    simp only [hpre]
  · intro doc h
    exact checkCoreFeaturesGo_ok doc.coreFeatures h

/-- Claim C2 counterexample: on a concrete document with feature
`tag/v0.1`, ingest fails with a `GraphQLError` whose attached code is `none`
rather than `UNSUPPORTED_FEATURE`. -/
theorem unsupported_feature_error_carries_no_code :
    buildComposedSchema badFeatureDoc = .error
      (.graphqlError
        "Unsupported core schema feature and/or version: https://specs.apollo.dev/tag/v0.1"
        none) ∧
    CompError.errCode
      (.graphqlError
        "Unsupported core schema feature and/or version: https://specs.apollo.dev/tag/v0.1"
        none) = none := by decide

/-- Claim C2 witness: both halves of the amended claim at concrete inputs. -/
theorem ingest_unsupported_feature_witness :
    (∃ f', f' ∈ badFeatureDoc.coreFeatures ∧ ¬allowedFeature f' ∧
      buildComposedSchema badFeatureDoc = .error
        (.graphqlError ("Unsupported core schema feature and/or version: " ++ f') none)) ∧
    checkCoreFeaturesGo (buildSupergraphSdl (compose sampleSubgraphs)).coreFeatures =
      .ok () :=
  ⟨ingest_unsupported_feature_fails_without_code.1 badFeatureDoc
      "https://specs.apollo.dev/tag/v0.1" (by decide) (by decide) (by decide),
    ingest_unsupported_feature_fails_without_code.2
      (buildSupergraphSdl (compose sampleSubgraphs)) (by decide)⟩

/-- Claim C3 (code bug): the validator's own documentation forbids key fields
that resolve to a list, but the code only checks interface and union types —
on a schema whose `@key` selects the list-typed field `ids`, the validator
reports no error at all. -/
theorem keyFieldsSelectInvalidType_ignores_list_key :
    (listKeySchema.map fun t => lookupField t.fields "ids") =
      [some (GType.list (GType.scalar "ID"))] ∧
    keyFieldsSelectInvalidType listKeySchema sampleServiceList = [] := by decide

/-- Claim C4 (amended): a `@key` field set selecting a field name missing
from the composed type makes the `keyFieldsSelectInvalidType` pass report an
error whose stable code is `KEY_FIELDS_SELECT_INVALID_TYPE` (not
`KEY_FIELDS_MISSING_ON_BASE` as the claim states). -/
theorem keyFieldsSelectInvalidType_missing_field_code
    (schema : List ValType) (l : List Service) (t : ValType)
    (ks : List (String × List (List String))) (p : String × List (List String))
    (sel : List String) (fname : String)
    (ht : t ∈ schema) (hobj : t.isObjectType = true) (hkeys : t.keys = some ks)
    (hp : p ∈ ks) (hsel : sel ∈ p.2) (hfn : fname ∈ sel)
    (hmiss : lookupField t.fields fname = none) :
    (⟨"KEY_FIELDS_SELECT_INVALID_TYPE",
      logServiceAndType p.1 t.name ++ "A @key selects " ++ fname ++ ", but " ++
        t.name ++ "." ++ fname ++ " could not be found"⟩ : ValError) ∈
      keyFieldsSelectInvalidType schema l := by
  refine errsForKeyField_mem_output schema l ht hobj hkeys hp hsel hfn ?_
  rw [errsForKeyField, hmiss]
  exact List.mem_singleton.mpr rfl

/-- Claim C4 counterexample: on a concrete composed schema whose key selects
the missing field `uuid`, the full error list consists of one error carrying
`KEY_FIELDS_SELECT_INVALID_TYPE` — no `KEY_FIELDS_MISSING_ON_BASE` error is
reported. -/
theorem missing_key_field_reports_select_invalid_type_code :
    keyFieldsSelectInvalidType missingKeySchema sampleServiceList =
      [⟨"KEY_FIELDS_SELECT_INVALID_TYPE",
        "[serviceA] Product -> A @key selects uuid, but Product.uuid could not be found"⟩] := by
  decide

/-- Claim C4 witness: the amended claim at the concrete missing-field
schema. -/
theorem keyFieldsSelectInvalidType_missing_field_witness :
    (⟨"KEY_FIELDS_SELECT_INVALID_TYPE",
      logServiceAndType "serviceA" "Product" ++ "A @key selects " ++ "uuid" ++ ", but " ++
        "Product" ++ "." ++ "uuid" ++ " could not be found"⟩ : ValError) ∈
      keyFieldsSelectInvalidType missingKeySchema sampleServiceList :=
  keyFieldsSelectInvalidType_missing_field_code missingKeySchema sampleServiceList
    { name := "Product", isObjectType := true,
      fields := [("upc", GType.scalar "String")],
      keys := some [("serviceA", [["uuid"]])] }
    [("serviceA", [["uuid"]])] ("serviceA", [["uuid"]]) ["uuid"] "uuid"
    (by decide) rfl rfl (by decide) (by decide) (by decide) (by decide)

/-- Claim C5: a `@key` field set selecting a field whose type — directly or
under a non-null wrapper — is a union or an interface makes post-composition
validation report an error with code `KEY_FIELDS_SELECT_INVALID_TYPE` for
that key field. -/
theorem keyFieldsSelectInvalidType_union_interface
    (schema : List ValType) (l : List Service) (t : ValType)
    (ks : List (String × List (List String))) (p : String × List (List String))
    (sel : List String) (fname : String) (fty : GType)
    (ht : t ∈ schema) (hobj : t.isObjectType = true) (hkeys : t.keys = some ks)
    (hp : p ∈ ks) (hsel : sel ∈ p.2) (hfn : fname ∈ sel)
    (hlf : lookupField t.fields fname = some fty)
    (htype :
      (isUnionType fty || isNonNullType fty && isUnionType (getNullableType fty)) = true ∨
      (isInterfaceType fty ||
        isNonNullType fty && isInterfaceType (getNullableType fty)) = true) :
    ∃ e ∈ keyFieldsSelectInvalidType schema l,
      e.code = "KEY_FIELDS_SELECT_INVALID_TYPE" := by
  rcases htype with hcU | hcI
  · refine ⟨⟨"KEY_FIELDS_SELECT_INVALID_TYPE",
      logServiceAndType p.1 t.name ++ "A @key selects " ++ t.name ++ "." ++ fname ++
        ", which is a union type. Keys cannot select union types."⟩,
      errsForKeyField_mem_output schema l ht hobj hkeys hp hsel hfn ?_, rfl⟩
    rw [errsForKeyField, hlf]
    refine List.mem_append.mpr (Or.inr ?_)
    rw [if_pos hcU]
    exact List.mem_singleton.mpr rfl
  · refine ⟨⟨"KEY_FIELDS_SELECT_INVALID_TYPE",
      logServiceAndType p.1 t.name ++ "A @key selects " ++ t.name ++ "." ++ fname ++
        ", which is an interface type. Keys cannot select interfaces."⟩,
      errsForKeyField_mem_output schema l ht hobj hkeys hp hsel hfn ?_, rfl⟩
    rw [errsForKeyField, hlf]
    refine List.mem_append.mpr (Or.inl ?_)
    rw [if_pos hcI]
    exact List.mem_singleton.mpr rfl

/-- Claim C5 witness: the union-typed key field of Scenario E is reported. -/
theorem keyFieldsSelectInvalidType_union_interface_witness :
    ∃ e ∈ keyFieldsSelectInvalidType unionKeySchema sampleServiceList,
      e.code = "KEY_FIELDS_SELECT_INVALID_TYPE" :=
  keyFieldsSelectInvalidType_union_interface unionKeySchema sampleServiceList
    { name := "Product", isObjectType := true,
      fields := [("category", GType.union "Category")],
      keys := some [("serviceA", [["category"]])] }
    [("serviceA", [["category"]])] ("serviceA", [["category"]]) ["category"] "category"
    (GType.union "Category") (by decide) rfl rfl (by decide) (by decide) (by decide)
    (by decide) (Or.inl rfl)

/-- Claim C6 (spec-modelled validator): `providesFieldsMissingExternal`
returns one `PROVIDES_FIELDS_MISSING_EXTERNAL` error per field mentioned in
a `@provides` that is not `@external` on the referenced type in the
providing subgraph, and returns the empty list exactly when there is no such
field. -/
theorem providesFieldsMissingExternal_spec (schema : List PSType) :
    (providesFieldsMissingExternal schema).length = countProvidesViolations schema ∧
    ((providesFieldsMissingExternal schema).all fun e =>
      e.code == "PROVIDES_FIELDS_MISSING_EXTERNAL") = true ∧
    (countProvidesViolations schema = 0 ↔ providesFieldsMissingExternal schema = []) := by
  have hlen : (providesFieldsMissingExternal schema).length =
      countProvidesViolations schema := by
    rw [providesFieldsMissingExternal, countProvidesViolations]
    apply length_flatMap_eq_sum
    intro t _
    apply length_flatMap_eq_sum
    intro f _
    exact providesErrsForField_length schema t.name f
  refine ⟨hlen, ?_, ?_⟩
  · rw [List.all_eq_true]
    intro e he
    rw [providesFieldsMissingExternal] at he
    obtain ⟨t, _, he'⟩ := List.mem_flatMap.mp he
    obtain ⟨f, _, he''⟩ := List.mem_flatMap.mp he'
    exact beq_iff_eq.mpr (providesErrsForField_code schema t.name f e he'')
  · rw [← hlen, List.length_eq_zero]

/-- Claim C7: the API schema returned by `buildComposedSchema` contains no
named type whose name starts with `core__` or `join__`, and no directive
named `core` or `join` or prefixed by `core__`/`join__`. -/
theorem buildComposedSchema_api_filtered (doc : Document) (out : ComposedSchema)
    (h : buildComposedSchema doc = .ok out) :
    (out.types.all fun t => !strStartsWith (PNamedType.typeName t) "core__" &&
      !strStartsWith (PNamedType.typeName t) "join__") = true ∧
    (out.directives.all fun d => !(d == "core") && !strStartsWith d "core__" &&
      !(d == "join") && !strStartsWith d "join__") = true := by
  rw [buildComposedSchema] at h
  cases hpre : ingestPrelude doc with
  | error e => simp only [hpre] at h; exact absurd h (by simp)
  | ok gm =>
    simp only [hpre] at h
    cases hmap : mapExcept (processDocType gm) doc.types with
    | error e => simp only [hmap] at h; exact absurd h (by simp)
    | ok ts =>
      simp only [hmap] at h
      injection h with h
      subst h
      constructor
      · rw [List.all_eq_true]
        intro t ht
        have hexp := List.of_mem_filter ht
        rw [isExportedTypeName] at hexp
        simp only [Bool.not_eq_true', Bool.or_eq_false_iff] at hexp
        simp [hexp.1, hexp.2]
      · rw [List.all_eq_true]
        intro d hd
        have hexp := List.of_mem_filter hd
        rw [isExportedDirectiveName] at hexp
        simp only [Bool.not_eq_true', Bool.or_eq_false_iff] at hexp
        simp [hexp.1.1.1, hexp.1.1.2, hexp.1.2, hexp.2]

/-- Claim C7 witness: the filtering property at a concrete supergraph
document that also declares a user directive. -/
theorem buildComposedSchema_api_filtered_witness :
    (sampleComposedOut.types.all fun t =>
      !strStartsWith (PNamedType.typeName t) "core__" &&
      !strStartsWith (PNamedType.typeName t) "join__") = true ∧
    (sampleComposedOut.directives.all fun d =>
      !(d == "core") && !strStartsWith d "core__" &&
      !(d == "join") && !strStartsWith d "join__") = true :=
  buildComposedSchema_api_filtered sampleSupergraphDoc sampleComposedOut (by decide)

/-- Claim C8: post-composition validation aggregates rather than
short-circuits — `keyFieldsSelectInvalidType` returns exactly one error per
violating occurrence over all types, services and key selection sets of its
input. -/
theorem keyFieldsSelectInvalidType_aggregates (schema : List ValType)
    (serviceList : List Service) :
    (keyFieldsSelectInvalidType schema serviceList).length =
      countKeyViolations schema := by
  rw [keyFieldsSelectInvalidType, countKeyViolations]
  apply length_flatMap_eq_sum
  intro t _
  cases hobj : t.isObjectType with
  | false => simp [hobj]
  | true =>
    simp only [hobj, Bool.not_true, Bool.false_eq_true, if_false]
    cases t.keys with
    | none => rfl
    | some ks =>
      apply length_flatMap_eq_sum
      intro p _
      apply length_flatMap_eq_sum
      intro sel _
      apply length_flatMap_eq_sum
      intro fname _
      exact errsForKeyField_length t p.1 fname

/-- Claim C9: during `buildComposedSchema`, a `@join__owner` or `@join__type`
naming an unknown graph makes parsing fail with an assertion error, while a
`@join__field` naming an unknown graph does not fail — the field still gets
metadata with `graphName` undefined and its requires/provides parsed as
usual. -/
theorem buildComposedSchema_unknown_graph_behavior :
    (∀ (doc : Document) (gm : GraphMap) (t : DocObjectType) (oa : JoinOwnerArgs),
      ingestPrelude doc = .ok gm → DocType.obj t ∈ doc.types →
      strStartsWith t.name "__" = false → t.joinOwnerArgs = some oa →
      lookupGraph gm oa.graph = none →
      ∃ m, buildComposedSchema doc = .error (.assertion m)) ∧
    (∀ (doc : Document) (gm : GraphMap) (t : DocObjectType) (d : JoinTypeArgs),
      ingestPrelude doc = .ok gm → DocType.obj t ∈ doc.types →
      strStartsWith t.name "__" = false → d ∈ t.joinTypeArgs →
      lookupGraph gm d.graph = none →
      ∃ m, buildComposedSchema doc = .error (.assertion m)) ∧
    (∀ (gm : GraphMap) (t : DocObjectType) (oa : JoinOwnerArgs) (g : Graph)
      (f : DocField) (fa : JoinFieldArgs),
      t.joinOwnerArgs = some oa → lookupGraph gm oa.graph = some g →
      strStartsWith t.name "__" = false →
      (∀ d ∈ t.joinTypeArgs, (lookupGraph gm d.graph).isSome = true) →
      f ∈ t.fields → f.joinFieldArgs = some fa → lookupGraph gm fa.graph = none →
      ∃ keys, processObj gm t = .ok (.obj t.name (some (.entity g.name keys))
          (t.fields.map (processField gm))) ∧
        processField gm f = ⟨f.name, some ⟨none,
          (truthy fa.requires).map parseFieldSet,
          (truthy fa.provides).map parseFieldSet⟩⟩) := by
  have key : ∀ (doc : Document) (gm : GraphMap) (t : DocObjectType),
      ingestPrelude doc = .ok gm → DocType.obj t ∈ doc.types →
      (∃ e₀, processObj gm t = .error e₀) →
      ∃ m, buildComposedSchema doc = .error (.assertion m) := by
    rintro doc gm t hpre hmem ⟨e₀, he₀⟩
    obtain ⟨b, _, e', hfb', hmap⟩ :=
      mapExcept_error_of_mem (processDocType gm) doc.types (DocType.obj t) e₀ hmem he₀
    obtain ⟨m, rfl⟩ := processDocType_error_shape gm b e' hfb'
    refine ⟨m, ?_⟩
    rw [buildComposedSchema]
    simp only [hpre, hmap]
  refine ⟨?_, ?_, ?_⟩
  · intro doc gm t oa hpre hmem hintro hoa hlk
    refine key doc gm t hpre hmem
      ⟨.assertion "@join__owner directive requires a `graph` argument", ?_⟩
    rw [processObj, if_neg (by simp [hintro])]
    simp only [hoa, hlk]
  · intro doc gm t d hpre hmem hintro hd hlk
    refine key doc gm t hpre hmem ?_
    cases hoa : t.joinOwnerArgs with
    | none =>
      have hne : ¬t.joinTypeArgs.isEmpty = true := by
        rw [List.isEmpty_iff]
        intro hc
        rw [hc] at hd
        exact absurd hd (List.not_mem_nil d)
      refine ⟨.assertion ("GraphQL type \"" ++ t.name ++
        "\" cannot have a @join__type directive without an @join__owner directive"), ?_⟩
      rw [processObj, if_neg (by simp [hintro])]
      simp only [hoa]
      rw [if_neg hne]
    | some oa =>
      cases hlk2 : lookupGraph gm oa.graph with
      | none =>
        refine ⟨.assertion "@join__owner directive requires a `graph` argument", ?_⟩
        rw [processObj, if_neg (by simp [hintro])]
        simp only [hoa, hlk2]
      | some g =>
        obtain ⟨e, he⟩ :=
          foldTypeDirs_error_of_mem gm t.name t.joinTypeArgs [] d hd hlk
        refine ⟨e, ?_⟩
        rw [processObj, if_neg (by simp [hintro])]
        simp only [hoa, hlk2, he]
  · intro gm t oa g f fa hoa hlk hintro hdirs hf hfa hfg
    obtain ⟨ks, hks⟩ := foldTypeDirs_ok_exists gm t.name t.joinTypeArgs [] hdirs
    refine ⟨ks, ?_, ?_⟩
    · rw [processObj, if_neg (by simp [hintro])]
      simp only [hoa, hlk, hks]
    · rw [processField]
      simp only [hfa, hfg, Option.map_none']

/-- Claim C9 witness: the three behaviors at concrete documents — unknown
owner graph fails, unknown `@join__type` graph fails, unknown `@join__field`
graph degrades to `graphName := none` with requires parsed. -/
theorem buildComposedSchema_unknown_graph_behavior_witness :
    (∃ m, buildComposedSchema unknownOwnerDoc = .error (.assertion m)) ∧
    (∃ m, buildComposedSchema unknownTypeDirDoc = .error (.assertion m)) ∧
    (∃ keys, processObj sampleGraphMap unknownFieldGraphObj =
        .ok (.obj "User" (some (.entity "accounts" keys))
          ([⟨"id", some ⟨"B", some "name profile", none⟩⟩].map
            (processField sampleGraphMap))) ∧
      processField sampleGraphMap ⟨"id", some ⟨"B", some "name profile", none⟩⟩ =
        ⟨"id", some ⟨none, (truthy (some "name profile")).map parseFieldSet,
          (truthy none).map parseFieldSet⟩⟩) :=
  ⟨buildComposedSchema_unknown_graph_behavior.1 unknownOwnerDoc sampleGraphMap
      { name := "User", joinOwnerArgs := some ⟨"B"⟩, joinTypeArgs := [],
        fields := [⟨"id", none⟩] } ⟨"B"⟩
      (by decide) (by decide) (by decide) rfl (by decide),
    buildComposedSchema_unknown_graph_behavior.2.1 unknownTypeDirDoc sampleGraphMap
      { name := "User", joinOwnerArgs := some ⟨"A"⟩,
        joinTypeArgs := [⟨"B", "id"⟩], fields := [⟨"id", none⟩] } ⟨"B", "id"⟩
      (by decide) (by decide) (by decide) (by decide) (by decide),
    buildComposedSchema_unknown_graph_behavior.2.2 sampleGraphMap
      unknownFieldGraphObj ⟨"A"⟩ ⟨"accounts", "http://accounts"⟩
      ⟨"id", some ⟨"B", some "name profile", none⟩⟩ ⟨"B", some "name profile", none⟩
      rfl (by decide) (by decide) (by decide) (by decide) rfl (by decide)⟩

/-- Claim C10: the gateway-configuration classification is total — every
config is static or dynamic; in particular a config with none of the
distinguishing properties is managed and hence dynamic. -/
theorem gatewayConfig_classification_total :
    (∀ c : GatewayConfig, isStaticConfig c = true ∨ isDynamicConfig c = true) ∧
    isManagedConfig emptyGatewayConfig = true ∧
    isDynamicConfig emptyGatewayConfig = true := by
  refine ⟨?_, by decide, by decide⟩
  intro c
  obtain ⟨l, cs, s, u1, u2, ep⟩ := c
  cases l <;> cases cs <;> cases s <;> cases u1 <;> cases u2 <;>
    simp [isStaticConfig, isDynamicConfig, isManagedConfig, isLocalConfig,
      isCsdlConfig, isRemoteConfig, isManuallyManagedConfig, isPrecomposedManagedConfig]

end Federation
